import Mathlib

set_option maxRecDepth 100000
set_option maxHeartbeats 1000000

/-!
Verification of the `fixed-num` Dec19x19 fixed-point decimal core.

This file shallowly embeds the Rust sources of the repository
(`crates/lib/src/dec19x19.rs`, `crates/lib/src/i128_ops.rs`,
`crates/helper/src/lib.rs`) into Lean and proves the specification
claims about them.

Modelling conventions:
* `i128` values are Lean `Int`s together with the range predicate
  `InI128`; Rust `/` and `%` on `i128` are `Int.tdiv` / `Int.tmod`
  (truncation toward zero, matching Rust semantics).
* `u128` values are Lean `Nat`s; wrapping `u128` arithmetic is explicit
  `% 2^128` (`wrapU128`); checked `u128`/`i128` arithmetic returns
  `Option`.
* `i256` intermediates (division, sqrt, ln) are plain `Int`s: every
  i256 value arising in those algorithms is bounded well below `2^255`,
  so 256-bit arithmetic is exact there; `as_i128` truncation back to
  128 bits is the explicit `wrapI128`.
* Rust panics (assertion failures, `expect`, division by zero) are
  modelled as `PanicOr.panicked`, or as `Option.none` where only one
  failure mode exists in the modelled fragment.
* Rust strings are lists of `Char`; `str::len` (a byte count) is
  `utf8Len`.
* Loops are given explicit fuel so that every definition reduces by
  computation; termination claims are stated as existence of sufficient
  fuel.
-/

-- ===== Constants (crates/helper/src/lib.rs, crates/lib/src/dec19x19.rs) =====

/-- The number of digits after the dot (`FRAC_PLACES`). -/
def FRAC_PLACES : Nat := 19

/-- `FRAC_SCALE_U128 = 10^19` as an unsigned magnitude. -/
def FRAC_SCALE_N : Nat := 10 ^ FRAC_PLACES

/-- `FRAC_SCALE_I128 = 10^19`. -/
def FRAC_SCALE : Int := (FRAC_SCALE_N : Int)

/-- `FRAC_SCALE_I128_HALF = FRAC_SCALE_I128 / 2`. -/
def FRAC_SCALE_HALF : Int := FRAC_SCALE / 2

/-- Smallest `i128` value, `-2^127`. -/
def I128_MIN : Int := -(2 ^ 127)

/-- Largest `i128` value, `2^127 - 1`. -/
def I128_MAX : Int := 2 ^ 127 - 1

/-- The `i128` range. -/
def InI128 (x : Int) : Prop := I128_MIN ≤ x ∧ x ≤ I128_MAX

instance (x : Int) : Decidable (InI128 x) := by
  unfold InI128
  infer_instance

/-- `i128::checked_add`. -/
def checkedAddI128 (a b : Int) : Option Int :=
  if InI128 (a + b) then some (a + b) else none

/-- `i128::checked_sub`. -/
def checkedSubI128 (a b : Int) : Option Int :=
  if InI128 (a - b) then some (a - b) else none

/-- `i128::checked_mul`. -/
def checkedMulI128 (a b : Int) : Option Int :=
  if InI128 (a * b) then some (a * b) else none

/-- `i128::checked_neg`. -/
def checkedNegI128 (a : Int) : Option Int :=
  if InI128 (-a) then some (-a) else none

/-- `u128::checked_mul`. -/
def checkedMulU128 (a b : Nat) : Option Nat :=
  if a * b < 2 ^ 128 then some (a * b) else none

/-- `u128::checked_add`. -/
def checkedAddU128 (a b : Nat) : Option Nat :=
  if a + b < 2 ^ 128 then some (a + b) else none

/-- Wrapping `u128` reduction (release-mode overflow semantics). -/
def wrapU128 (n : Nat) : Nat := n % 2 ^ 128

/-- `i256::as_i128`: keep the low 128 bits, reinterpreted as signed. -/
def wrapI128 (z : Int) : Int := (z + 2 ^ 127) % 2 ^ 128 - 2 ^ 127

/-- `i128::try_from(u128)`. -/
def u128ToI128 (n : Nat) : Option Int :=
  if (n : Int) ≤ I128_MAX then some (n : Int) else none

-- ===== The Dec19x19 value type =====

/-- The Dec19x19 fixed-point type: an `i128` `repr` whose mathematical
value is `repr / 10^19`. -/
structure Dec19x19 where
  repr : Int
deriving DecidableEq, Repr

/-- `Dec19x19::from_repr`. -/
def from_repr (r : Int) : Dec19x19 := ⟨r⟩

/-- `Dec19x19::MAX` (`repr = i128::MAX`). -/
def DMAX : Dec19x19 := ⟨I128_MAX⟩

/-- `Dec19x19::MIN` (`repr = i128::MIN`). -/
def DMIN : Dec19x19 := ⟨I128_MIN⟩

/-- `Dec19x19::MAX_INT = Dec19x19!(17_014_118_346_046_923_173)`. -/
def MAX_INT : Dec19x19 := ⟨17014118346046923173 * FRAC_SCALE⟩

/-- `Dec19x19::MIN_INT = Dec19x19!(-17_014_118_346_046_923_173)`. -/
def MIN_INT : Dec19x19 := ⟨-17014118346046923173 * FRAC_SCALE⟩

/-- `Dec19x19::SMALLEST_STEP` (`repr = 1`, value `10^-19`). -/
def SMALLEST_STEP : Dec19x19 := ⟨1⟩

/-- `Dec19x19::LN_2 = Dec19x19!(0.693_147_180_559_945_309_4)`. -/
def LN_2 : Dec19x19 := ⟨6931471805599453094⟩

/-- `Neg::neg`: negation, with `-MIN` saturating to `MAX`. -/
def neg (x : Dec19x19) : Dec19x19 :=
  if x = DMIN then DMAX else ⟨-x.repr⟩

/-- `Rem::rem` on `Dec19x19`. -/
def rem (a b : Dec19x19) : Dec19x19 :=
  if b.repr = 0 then
    a
  else if a = DMIN ∧ b = neg SMALLEST_STEP then
    ⟨0⟩
  else
    ⟨a.repr.tmod b.repr⟩

-- ===== Multiplication backends (dec19x19.rs, lines 759-936) =====

/-- `Dec19x19::unchecked_mul_no_opt`; `none` models the
`try_into().expect("Overflow")` panic, intermediate `u128` arithmetic
wraps. -/
def unchecked_mul_no_opt (a b : Dec19x19) : Option Dec19x19 :=
  let neg := (decide (a.repr < 0)) ^^ (decide (b.repr < 0))
  let ua := a.repr.natAbs
  let ub := b.repr.natAbs
  let ai := ua / FRAC_SCALE_N
  let af := ua % FRAC_SCALE_N
  let bi := ub / FRAC_SCALE_N
  let bf := ub % FRAC_SCALE_N
  let int_ := wrapU128 (ai * bi)
  let cross := wrapU128 (wrapU128 (ai * bf) + wrapU128 (bi * af))
  let frac := wrapU128 (af * bf) / FRAC_SCALE_N
  let mag := wrapU128 (wrapU128 (wrapU128 (int_ * FRAC_SCALE_N) + cross) + frac)
  match u128ToI128 mag with
  | none => none
  | some r => some ⟨if neg then -r else r⟩

/-- `Dec19x19::unchecked_mul_opt`; `none` models the
`try_into().expect("Overflow")` panic, intermediate `u128` arithmetic
wraps. -/
def unchecked_mul_opt (a b : Dec19x19) : Option Dec19x19 :=
  let neg := (decide (a.repr < 0)) ^^ (decide (b.repr < 0))
  let ua := a.repr.natAbs
  let ub := b.repr.natAbs
  let bi := ub / FRAC_SCALE_N
  let bf := ub % FRAC_SCALE_N
  let mag :=
    if bf = 0 then
      wrapU128 (ua * bi)
    else if bi = 0 then
      let ai := ua / FRAC_SCALE_N
      let af := ua % FRAC_SCALE_N
      let cross := wrapU128 (ai * bf)
      let frac := wrapU128 (af * bf) / FRAC_SCALE_N
      wrapU128 (cross + frac)
    else
      let ai := ua / FRAC_SCALE_N
      let af := ua % FRAC_SCALE_N
      let int_ := wrapU128 (wrapU128 (ai * bi) * FRAC_SCALE_N)
      if af = 0 then
        let cross := wrapU128 (ai * bf)
        wrapU128 (int_ + cross)
      else
        let cross := wrapU128 (wrapU128 (ai * bf) + wrapU128 (bi * af))
        let frac := wrapU128 (af * bf) / FRAC_SCALE_N
        wrapU128 (wrapU128 (int_ + cross) + frac)
  match u128ToI128 mag with
  | none => none
  | some r => some ⟨if neg then -r else r⟩

/-- `Dec19x19::checked_mul_no_opt`. -/
def checked_mul_no_opt (a b : Dec19x19) : Option Dec19x19 := do
  let neg := (decide (a.repr < 0)) ^^ (decide (b.repr < 0))
  let ua := a.repr.natAbs
  let ub := b.repr.natAbs
  let ai := ua / FRAC_SCALE_N
  let af := ua % FRAC_SCALE_N
  let bi := ub / FRAC_SCALE_N
  let bf := ub % FRAC_SCALE_N
  let int_ ← checkedMulU128 ai bi
  let t1 ← checkedMulU128 ai bf
  let t2 ← checkedMulU128 bi af
  let cross ← checkedAddU128 t1 t2
  let frac_mul ← checkedMulU128 af bf
  let frac := frac_mul / FRAC_SCALE_N
  let scaled_int ← checkedMulU128 int_ FRAC_SCALE_N
  let sum1 ← checkedAddU128 scaled_int cross
  let mag ← checkedAddU128 sum1 frac
  let r ← u128ToI128 mag
  if neg then
    let rn ← checkedNegI128 r
    pure ⟨rn⟩
  else
    pure ⟨r⟩

/-- `Dec19x19::checked_mul_opt`. -/
def checked_mul_opt (a b : Dec19x19) : Option Dec19x19 := do
  let neg := (decide (a.repr < 0)) ^^ (decide (b.repr < 0))
  let ua := a.repr.natAbs
  let ub := b.repr.natAbs
  let bi := ub / FRAC_SCALE_N
  let bf := ub % FRAC_SCALE_N
  let mag ←
    if bf = 0 then
      checkedMulU128 ua bi
    else if bi = 0 then do
      let ai := ua / FRAC_SCALE_N
      let af := ua % FRAC_SCALE_N
      let cross ← checkedMulU128 ai bf
      let frac_mul ← checkedMulU128 af bf
      let frac := frac_mul / FRAC_SCALE_N
      checkedAddU128 cross frac
    else do
      let ai := ua / FRAC_SCALE_N
      let af := ua % FRAC_SCALE_N
      let ib ← checkedMulU128 ai bi
      let int_ ← checkedMulU128 ib FRAC_SCALE_N
      if af = 0 then do
        let cross ← checkedMulU128 ai bf
        checkedAddU128 int_ cross
      else do
        let t1 ← checkedMulU128 ai bf
        let t2 ← checkedMulU128 bi af
        let cross ← checkedAddU128 t1 t2
        let frac_mul ← checkedMulU128 af bf
        let frac := frac_mul / FRAC_SCALE_N
        let sum1 ← checkedAddU128 int_ cross
        checkedAddU128 sum1 frac
  let r ← u128ToI128 mag
  if neg then
    let rn ← checkedNegI128 r
    pure ⟨rn⟩
  else
    pure ⟨r⟩

/-- `Dec19x19::checked_mul`: the `mul_opt` feature is on by default, so
the public checked multiplication is the optimized backend. -/
def checked_mul (a b : Dec19x19) : Option Dec19x19 := checked_mul_opt a b

-- ===== Scale table and rounding family (i128_ops.rs, dec19x19.rs) =====

/-- `POW10[i] = 10^i` (the precomputed scale table). -/
def POW10 (i : Nat) : Int := 10 ^ i

/-- `i128_ops::scale_for`: clamp `digits` to `[-19, 19]` and return
`POW10[19 - digits]`. -/
def scale_for (digits : Int) : Int :=
  let d := if digits < -19 then -19 else if digits > 19 then (19 : Int) else digits
  POW10 (19 - d).toNat

/-- `Dec19x19::trunc_impl`: `(repr / scale) * scale`. -/
def trunc_impl (x : Dec19x19) (scale : Int) : Dec19x19 :=
  ⟨x.repr.tdiv scale * scale⟩

/-- `Dec19x19::round_impl`: branchless half-away-from-zero rounding.
`repr >> 127` is the arithmetic shift producing the sign mask. -/
def round_impl (x : Dec19x19) (scale scale_half : Int) : Dec19x19 :=
  let sign := x.repr >>> (127 : Nat)
  let bias := Int.xor scale_half sign - sign
  let rounded :=
    match checkedAddI128 x.repr bias with
    | some t => t.tdiv scale
    | none => x.repr.tdiv scale
  ⟨rounded * scale⟩

/-- `RoundTo::round_to`. -/
def round_to (x : Dec19x19) (digits : Int) : Dec19x19 :=
  let scale := scale_for digits
  let scale_half := scale.tdiv 2
  round_impl x scale scale_half

-- ===== digit_count (i128_ops.rs) =====

/-- `i128_ops::digit_count`: decimal digit count of `|n|`, in `[1, 39]`;
transcription of the unrolled comparison tree over the `POW10`
thresholds. -/
def digit_count (n : Int) : Int :=
  if n = I128_MIN then 39
  else
    let n := |n|
    if n < POW10 19 then
      if n < POW10 9 then
        if n < POW10 4 then
          if n < POW10 2 then
            if n < POW10 1 then 1 else 2
          else
            if n < POW10 3 then 3 else 4
        else
          if n < POW10 7 then
            if n < POW10 5 then 5 else if n < POW10 6 then 6 else 7
          else
            if n < POW10 8 then 8 else 9
      else
        if n < POW10 14 then
          if n < POW10 12 then
            if n < POW10 10 then 10 else if n < POW10 11 then 11 else 12
          else
            if n < POW10 13 then 13 else 14
        else
          if n < POW10 17 then
            if n < POW10 15 then 15 else if n < POW10 16 then 16 else 17
          else
            if n < POW10 18 then 18 else 19
    else
      if n < POW10 29 then
        if n < POW10 24 then
          if n < POW10 22 then
            if n < POW10 20 then 20 else if n < POW10 21 then 21 else 22
          else
            if n < POW10 23 then 23 else 24
        else
          if n < POW10 27 then
            if n < POW10 25 then 25 else if n < POW10 26 then 26 else 27
          else
            if n < POW10 28 then 28 else 29
      else
        if n < POW10 34 then
          if n < POW10 32 then
            if n < POW10 30 then 30 else if n < POW10 31 then 31 else 32
          else
            if n < POW10 33 then 33 else 34
        else
          if n < POW10 37 then
            if n < POW10 35 then 35 else if n < POW10 36 then 36 else 37
          else
            if n < POW10 38 then 38 else 39

-- ===== Panics, log10_floor, division, pow =====

/-- Result of a Rust computation which may panic. -/
inductive PanicOr (α : Type) where
  | panicked : PanicOr α
  | ok : α → PanicOr α
deriving DecidableEq, Repr

/-- `Dec19x19::from_i32` (`value as i128 * FRAC_SCALE_I128`). -/
def from_i32 (v : Int) : Dec19x19 := ⟨v * FRAC_SCALE⟩

/-- `Dec19x19::unchecked_log10_floor`: asserts `repr > 0` (panics
otherwise), then returns `from_i32(digit_count(repr) - 20)`. -/
def unchecked_log10_floor (x : Dec19x19) : PanicOr Dec19x19 :=
  if x.repr > 0 then
    .ok (from_i32 (digit_count x.repr - 20))
  else
    .panicked

/-- `Dec19x19::checked_log10_floor`: guards with `repr >= 0` and calls
the unchecked version (whose panic propagates). -/
def checked_log10_floor (x : Dec19x19) : PanicOr (Option Dec19x19) :=
  if x.repr ≥ 0 then
    match unchecked_log10_floor x with
    | .panicked => .panicked
    | .ok v => .ok (some v)
  else
    .ok none

/-- `Dec19x19::unchecked_div`: 256-bit lift `(lhs * FRAC_SCALE) / rhs`,
truncated back to `i128` by `as_i128`. The division panics when
`rhs.repr = 0`. The i256 intermediate `lhs * FRAC_SCALE` is bounded by
`2^127 * 10^19 < 2^191`, so `Int` arithmetic models it exactly. -/
def unchecked_div (a b : Dec19x19) : PanicOr Dec19x19 :=
  if b.repr = 0 then
    .panicked
  else
    .ok ⟨wrapI128 ((a.repr * FRAC_SCALE).tdiv b.repr)⟩

/-- The squaring loop of `Dec19x19::checked_pow` (binary
exponentiation): `base = base * base; if e % 2 = 1 then result =
result.checked_mul(base)?; e = e / 2`, repeated while `e > 0`. -/
def pow_go (result base : Dec19x19) (e : Nat) : Option Dec19x19 :=
  if h : e = 0 then
    some result
  else
    match checked_mul base base with
    | none => none
    | some b2 =>
      match (if e % 2 = 1 then checked_mul result b2 else some result) with
      | none => none
      | some r2 => pow_go r2 b2 (e / 2)
termination_by e
decreasing_by
  exact Nat.div_lt_self (Nat.pos_of_ne_zero h) (by omega)

/-- `Dec19x19::checked_pow`: for a negative exponent the initial base is
`Dec19x19!(1) / self`, computed with the panicking unchecked division;
then binary exponentiation over `|exp|` with `checked_mul`. -/
def checked_pow (x : Dec19x19) (exp : Int) : PanicOr (Option Dec19x19) :=
  let e := exp.natAbs
  let base0 : PanicOr Dec19x19 :=
    if exp ≥ 0 then .ok x else unchecked_div ⟨FRAC_SCALE⟩ x
  match base0 with
  | .panicked => .panicked
  | .ok base =>
    let one : Dec19x19 := ⟨FRAC_SCALE⟩
    if e = 0 then
      .ok (some one)
    else
      match (if e % 2 = 1 then checked_mul one base else some one) with
      | none => .ok none
      | some r1 => .ok (pow_go r1 base (e / 2))

-- ===== sqrt and ln loops (fuel-explicit) =====

/-- One Newton-Raphson step of `unchecked_sqrt`:
`guess = (guess + (x * scale) / guess) / 2` in i256 arithmetic (bounded
by `2^191`, hence exact over `Int`). -/
def sqrt_iter (M g : Int) : Int :=
  ((g + (M * FRAC_SCALE).tdiv g).tdiv 2)

/-- The Newton-Raphson loop of `unchecked_sqrt`: iterate until
`|last - guess| <= 1`, then return `guess`; `none` means the fuel ran
out before the loop condition held. -/
def sqrt_go (M : Int) : Nat → Int → Option Int
  | 0, _ => none
  | fuel + 1, g =>
    let g2 := sqrt_iter M g
    if (g - g2).natAbs ≤ 1 then some g2 else sqrt_go M fuel g2

/-- `SQRT2_UP_I128 = 14_142_135_623_730_950_488` (`scale * sqrt 2`). -/
def SQRT2_UP : Int := 14142135623730950488

/-- `SQRT2_DN_I128 = 7_071_067_811_865_475_244` (`scale / sqrt 2`). -/
def SQRT2_DN : Int := 7071067811865475244

/-- First range-reduction loop of `unchecked_ln`:
`while v > sqrt2_up { v /= 2; exp += 1 }`. -/
def ln_halve : Nat → Int → Int → Option (Int × Int)
  | 0, v, exp => if SQRT2_UP < v then none else some (v, exp)
  | fuel + 1, v, exp =>
    if SQRT2_UP < v then ln_halve fuel (v.tdiv 2) (exp + 1) else some (v, exp)

/-- Second range-reduction loop of `unchecked_ln`:
`while v < sqrt2_dn { v *= 2; exp -= 1 }`. -/
def ln_double : Nat → Int → Int → Option (Int × Int)
  | 0, v, exp => if v < SQRT2_DN then none else some (v, exp)
  | fuel + 1, v, exp =>
    if v < SQRT2_DN then ln_double fuel (v * 2) (exp - 1) else some (v, exp)

/-- The atanh-series loop of `unchecked_ln`: repeatedly
`u_pow = (u_pow * u / scale) * u / scale; k += 2;
term = u_pow / k; if term = 0 break; sum += term`; returns `sum`. -/
def ln_series : Nat → Int → Int → Int → Int → Option Int
  | 0, _, _, _, _ => none
  | fuel + 1, u, u_pow, sum, k =>
    let u_pow2 := ((u_pow * u).tdiv FRAC_SCALE * u).tdiv FRAC_SCALE
    let k2 := k + 2
    let term := u_pow2.tdiv k2
    if term = 0 then some sum else ln_series fuel u u_pow2 (sum + term) k2

/-- `Dec19x19::unchecked_ln` (with explicit fuel for its three loops):
range-reduce `v` into `[scale/sqrt 2, scale*sqrt 2]`, sum the atanh
series of `u = (v - scale) * scale / (v + scale)`, then add back
`exp * LN_2`. All i256 intermediates are bounded below `2^255`, so
`Int` arithmetic is exact; the final `as_i128` is `wrapI128`. -/
def unchecked_ln_fuel (x : Dec19x19) (fuel : Nat) : Option Dec19x19 := do
  let (v1, e1) ← ln_halve fuel x.repr 0
  let (v2, e2) ← ln_double fuel v1 e1
  let num := v2 - FRAC_SCALE
  let den := v2 + FRAC_SCALE
  let u := (num * FRAC_SCALE).tdiv den
  let sum ← ln_series fuel u u u 1
  let ln_mant := sum * 2
  let result := ln_mant + LN_2.repr * e2
  pure ⟨wrapI128 result⟩

-- ===== Infallible conversions Dec19x19 -> integers (dec19x19.rs) =====

/-- `From<Dec19x19> for u64`: `(repr / FRAC_SCALE_I128) as u64`; the
`as` cast keeps the low 64 bits of the quotient. -/
def into_u64 (x : Dec19x19) : Nat :=
  ((x.repr.tdiv FRAC_SCALE).emod (2 ^ 64)).toNat

/-- `From<Dec19x19> for u128`: `(repr / FRAC_SCALE_I128) as u128`. -/
def into_u128 (x : Dec19x19) : Nat :=
  ((x.repr.tdiv FRAC_SCALE).emod (2 ^ 128)).toNat

/-- `From<Dec19x19> for i128`: `(repr / FRAC_SCALE_I128) as i128` (the
cast is the identity on `i128`). -/
def into_i128 (x : Dec19x19) : Int :=
  x.repr.tdiv FRAC_SCALE

-- ===== Strings: chars, digits (Rust strings as lists of chars) =====

/-- Byte length of a Rust string (`str::len`). -/
def utf8Len (l : List Char) : Nat := (l.map Char.utf8Size).sum

/-- ASCII digit character for `d < 10` (used by integer formatting). -/
def digitToChar (d : Nat) : Char := Char.ofNat (48 + d)

/-- Numeric value of an ASCII digit character. -/
def charToDigitVal (c : Char) : Nat := c.toNat - 48

/-- Decimal digit characters of `n` (most significant first), matching
Rust's integer `to_string`; structural on the fuel argument. -/
def natDigitsGo : Nat → Nat → List Char
  | 0, _ => []
  | fuel + 1, n =>
    if n < 10 then [digitToChar n]
    else natDigitsGo fuel (n / 10) ++ [digitToChar (n % 10)]

/-- Decimal digit string of `n` (Rust `to_string` on unsigned values). -/
def natDigits (n : Nat) : List Char := natDigitsGo (n + 1) n

/-- Value of a digit string (the accumulator loop of an integer
`from_str`). -/
def digitsToNat (l : List Char) : Nat :=
  l.foldl (fun a c => 10 * a + charToDigitVal c) 0

/-- `str::parse::<i128>`: optional `+`/`-` sign, then one or more ASCII
digits; `none` on empty digits, invalid characters, or overflow. -/
def parse_i128 (l : List Char) : Option Int :=
  match l with
  | [] => none
  | c :: rest =>
    let signed : Bool × List Char :=
      if c = '-' then (true, rest)
      else if c = '+' then (false, rest)
      else (false, l)
    match signed with
    | (neg, digits) =>
      if digits.isEmpty then none
      else if digits.all Char.isDigit then
        let v : Int := if neg then -(digitsToNat digits : Int) else (digitsToNat digits : Int)
        if InI128 v then some v else none
      else none

-- ===== Parser (crates/helper/src/lib.rs) =====

/-- The `ParseDec19x19Error` variants. -/
inductive ParseError where
  | parseIntError : ParseError
  | outOfBounds : ParseError
  | tooPrecise : ParseError
  | invalidChar : Char → Nat → ParseError
deriving DecidableEq, Repr

/-- Result of `parse_dec19x19_internal`. -/
inductive ParseResult where
  | err : ParseError → ParseResult
  | ok : Int → ParseResult
deriving DecidableEq, Repr

/-- `s.replace(['_', ' '], "")`. -/
def removeSeps (l : List Char) : List Char :=
  l.filter (fun c => !(c == '_' || c == ' '))

/-- `str::trim`: drop whitespace from both ends. -/
def trimList (l : List Char) : List Char :=
  ((l.dropWhile Char.isWhitespace).reverse.dropWhile Char.isWhitespace).reverse

/-- `str::split(sep).collect()`: split at every occurrence of `sep`,
keeping empty pieces. -/
def splitOnChar (sep : Char) : List Char → List (List Char)
  | [] => [[]]
  | c :: cs =>
    match splitOnChar sep cs with
    | [] => [[]]
    | h :: t => if c = sep then [] :: h :: t else (c :: h) :: t

/-- `trim_start_matches('0')`. -/
def dropLeadingZeros (l : List Char) : List Char :=
  l.dropWhile (fun c => c == '0')

/-- `trim_end_matches('0')`. -/
def dropTrailingZeros (l : List Char) : List Char :=
  (l.reverse.dropWhile (fun c => c == '0')).reverse

/-- `fixed_num_helper::shift_decimal`: move the decimal point of the
`(int_part, frac_part)` digit strings by `exp` positions, then strip
leading/trailing zeros and substitute `"0"` for empty sides. String
indexing in the source is byte-based; every use in this file is on
ASCII strings, where bytes and chars coincide. -/
def shift_decimal (int_part frac_part : List Char) (exp : Int) :
    List Char × List Char :=
  let moved : List Char × List Char :=
    if exp > 0 then
      let e := exp.toNat
      let move_count := min e frac_part.length
      let int2 := int_part ++ frac_part.take move_count
      let frac2 := frac_part.drop move_count
      let int3 := if e > move_count then int2 ++ List.replicate (e - move_count) '0' else int2
      (int3, frac2)
    else if exp < 0 then
      let e := (-exp).toNat
      let move_count := min e int_part.length
      let moved_digits := int_part.drop (int_part.length - move_count)
      let frac2 := moved_digits ++ frac_part
      let int2 := int_part.take (int_part.length - move_count)
      let frac3 := if e > move_count then List.replicate (e - move_count) '0' ++ frac2 else frac2
      (int2, frac3)
    else
      (int_part, frac_part)
  let int_t := dropLeadingZeros moved.1
  let frac_t := dropTrailingZeros moved.2
  let int_r := if int_t.isEmpty then ['0'] else int_t
  let frac_r := if frac_t.isEmpty then ['0'] else frac_t
  (int_r, frac_r)

/-- `fixed_num_helper::parse_dec19x19_internal`. -/
def parse_dec19x19_internal (s : List Char) : ParseResult :=
  let clean := removeSeps s
  let trimmed := trimList clean
  let is_negative : Bool := match trimmed with
    | c :: _ => c = '-'
    | [] => false
  let e_parts := splitOnChar 'e' trimmed
  if e_parts.length > 2 then
    .err (.invalidChar 'e' (utf8Len (e_parts.headD []) + utf8Len (e_parts.getD 1 []) + 1))
  else
    let expParsed : Option Int :=
      match e_parts.getD 1 [] with
      | [] => if e_parts.length ≥ 2 then parse_i128 [] else some 0
      | t => parse_i128 t
    match expParsed with
    | none => .err .parseIntError
    | some exp =>
      let parts := splitOnChar '.' (e_parts.headD [])
      if parts.length > 2 then
        .err (.invalidChar '.' (utf8Len (parts.headD []) + utf8Len (parts.getD 1 []) + 1))
      else
        let int_part_str := parts.headD []
        let frac_part_str := parts.getD 1 []
        let shifted := shift_decimal int_part_str frac_part_str exp
        match parse_i128 shifted.1 with
        | none => .err .parseIntError
        | some int_part =>
          if utf8Len shifted.2 > FRAC_PLACES then
            .err .tooPrecise
          else
            let padded := shifted.2 ++ List.replicate (FRAC_PLACES - shifted.2.length) '0'
            match parse_i128 padded with
            | none => .err .parseIntError
            | some frac_part =>
              match checkedMulI128 int_part FRAC_SCALE with
              | none => .err .outOfBounds
              | some scaled =>
                match (if is_negative then checkedSubI128 scaled frac_part
                       else checkedAddI128 scaled frac_part) with
                | none => .err .outOfBounds
                | some repr => .ok repr

-- ===== Formatter (dec19x19.rs Format impl, helper Formatter) =====

/-- `std::fmt::Alignment`. -/
inductive Align where
  | left : Align
  | center : Align
  | right : Align
deriving DecidableEq, Repr

/-- The `fixed_num_helper::Formatter` configuration. -/
structure Formatter where
  separator : Option Char
  precision : Option Nat
  width : Option Nat
  align : Option Align
  fill : Char
  sign_plus : Bool
deriving DecidableEq, Repr

/-- The default formatter configuration used by `Display` without
flags: no separator, no precision, no width, no alignment, space fill,
no forced plus sign. -/
def defaultFormatter : Formatter := ⟨none, none, none, none, ' ', false⟩

/-- The integer-part separator loop: before the char at index `i`
(when `i != 0` and `(len - i) % 3 = 0`) push the separator if one is
configured. -/
def intSepGo (sep : Option Char) (len : Nat) : Nat → List Char → List Char
  | _, [] => []
  | i, c :: cs =>
    (if i ≠ 0 ∧ (len - i) % 3 = 0 then
      (match sep with
       | some s => [s]
       | none => [])
     else []) ++ c :: intSepGo sep len (i + 1) cs

/-- The fractional-part separator loop: before the char at index `i`
(when `i > 0` and `i % 3 = 0`) push the separator if one is
configured. -/
def fracSepGo (sep : Option Char) : Nat → List Char → List Char
  | _, [] => []
  | i, c :: cs =>
    (if i > 0 ∧ i % 3 = 0 then
      (match sep with
       | some s => [s]
       | none => [])
     else []) ++ c :: fracSepGo sep (i + 1) cs

/-- `format!("{:0w$}", n)` for `w = 19`: left-pad the digit string with
zeros. -/
def padLeftZeros (w : Nat) (l : List Char) : List Char :=
  List.replicate (w - l.length) '0' ++ l

/-- `Format::format for Dec19x19`: render according to a `Formatter`
configuration. -/
def format (x : Dec19x19) (f : Formatter) : List Char :=
  let self2 : Dec19x19 := match f.precision with
    | some p => round_to x (Int.ofNat (min p 19))
    | none => x
  let int_part := self2.repr.tdiv FRAC_SCALE
  let frac_part := (self2.repr.tmod FRAC_SCALE).natAbs
  let frac_str0 := dropTrailingZeros (padLeftZeros FRAC_PLACES (natDigits frac_part))
  let frac_str := match f.precision with
    | some prec =>
      if frac_str0.length < prec then
        frac_str0 ++ List.replicate (prec - frac_str0.length) '0'
      else frac_str0
    | none => frac_str0
  let int_str := natDigits int_part.natAbs
  let sign : List Char :=
    if self2.repr < 0 then ['-'] else if f.sign_plus then ['+'] else []
  let with_int := sign ++ intSepGo f.separator int_str.length 0 int_str
  let result :=
    if frac_str.isEmpty then with_int
    else with_int ++ '.' :: fracSepGo f.separator 0 frac_str
  match f.width with
  | none => result
  | some width =>
    let padding := width - utf8Len result
    match f.align with
    | some .right => result ++ List.replicate padding f.fill
    | some .center =>
      let left_padding := padding / 2
      let right_padding := padding - left_padding
      List.replicate left_padding f.fill ++ result ++ List.replicate right_padding f.fill
    | _ => List.replicate padding f.fill ++ result

-- ===== Helper lemmas: shift, xor, tmod signs =====

theorem shiftRight127_eq (x : Int) (h : InI128 x) :
    x >>> (127 : Nat) = if x < 0 then -1 else 0 := by
  rw [Int.shiftRight_eq_div_pow]
  have h2 : (((2 : Nat) ^ 127 : Nat) : Int) = 170141183460469231731687303715884105728 := by
    norm_num
  rw [h2]
  unfold InI128 I128_MIN I128_MAX at h
  split <;> omega

theorem int_xor_zero_right (h : Int) (hh : 0 ≤ h) : Int.xor h 0 = h := by
  obtain ⟨n, rfl⟩ := Int.eq_ofNat_of_zero_le hh
  show Int.ofNat (n ^^^ 0) = Int.ofNat n
  rw [Nat.xor_zero]

theorem int_xor_neg_one_right (h : Int) (hh : 0 ≤ h) : Int.xor h (-1) = -h - 1 := by
  obtain ⟨n, rfl⟩ := Int.eq_ofNat_of_zero_le hh
  show Int.negSucc (n ^^^ 0) = -Int.ofNat n - 1
  rw [Nat.xor_zero, Int.negSucc_eq]
  simp only [Int.ofNat_eq_natCast]
  ring

theorem scale_for_pos (d : Int) : 0 < scale_for d := by
  simp only [scale_for, POW10]
  exact pow_pos (by norm_num) _

theorem tmod_nonpos_of_neg (a b : Int) (ha : a < 0) : a.tmod b ≤ 0 := by
  match a, b with
  | Int.ofNat m, _ =>
    simp only [Int.ofNat_eq_natCast] at ha
    omega
  | Int.negSucc m, Int.ofNat n =>
    show -Int.ofNat (m.succ % n) ≤ 0
    simp only [Int.ofNat_eq_natCast]
    omega
  | Int.negSucc m, Int.negSucc n =>
    show -Int.ofNat (m.succ % n.succ) ≤ 0
    simp only [Int.ofNat_eq_natCast]
    omega

-- ===== C3: round_to is biased truncation (half away from zero) =====

/-- C3: for every value `x` and digit count `d`, `round_to` adds the
half-scale bias `+s/2` (non-negative `x`) or `-s/2` (negative `x`) at
scale `s = scale_for d`, truncating-divides by `s` and multiplies back;
when the biased addition leaves the `i128` range the result is
truncation `trunc_impl` at that scale, so `round_to MAX 0 = MAX_INT`
and `round_to MIN 0 = MIN_INT` without overflow. -/
theorem round_to_spec (x : Dec19x19) (d : Int) (h : InI128 x.repr) :
    (round_to x d =
      (let s := scale_for d
       let bias : Int := if x.repr < 0 then -(s.tdiv 2) else s.tdiv 2
       if InI128 (x.repr + bias) then ⟨(x.repr + bias).tdiv s * s⟩
       else trunc_impl x s))
    ∧ round_to DMAX 0 = MAX_INT ∧ round_to DMIN 0 = MIN_INT := by
  refine ⟨?_, by decide, by decide⟩
  have hs : 0 < scale_for d := scale_for_pos d
  have hsh : 0 ≤ (scale_for d).tdiv 2 := Int.tdiv_nonneg hs.le (by norm_num)
  simp only [round_to, round_impl, trunc_impl, checkedAddI128]
  rw [shiftRight127_eq x.repr h]
  by_cases hx : x.repr < 0
  · simp only [hx, if_true]
    rw [show Int.xor ((scale_for d).tdiv 2) (-1) = -(scale_for d).tdiv 2 - 1 from
      int_xor_neg_one_right _ hsh]
    have hbias : -(scale_for d).tdiv 2 - 1 - -1 = -(scale_for d).tdiv 2 := by ring
    rw [hbias]
    by_cases hP : InI128 (x.repr + -(scale_for d).tdiv 2)
    · simp only [hP, if_true]
    · simp only [hP, if_false]
  · simp only [hx, if_false]
    rw [show Int.xor ((scale_for d).tdiv 2) 0 = (scale_for d).tdiv 2 from
      int_xor_zero_right _ hsh]
    have hbias : (scale_for d).tdiv 2 - 0 = (scale_for d).tdiv 2 := by ring
    rw [hbias]
    by_cases hP : InI128 (x.repr + (scale_for d).tdiv 2)
    · simp only [hP, if_true]
    · simp only [hP, if_false]

/-- Witness for C3 at `x = 3.5`, `d = 0`. -/
theorem round_to_spec_witness :
    InI128 (35 * 10 ^ 18 : Int) ∧
    ((round_to ⟨35 * 10 ^ 18⟩ 0 =
      (let s := scale_for 0
       let bias : Int := if (35 * 10 ^ 18 : Int) < 0 then -(s.tdiv 2) else s.tdiv 2
       if InI128 (35 * 10 ^ 18 + bias) then ⟨((35 * 10 ^ 18 : Int) + bias).tdiv s * s⟩
       else trunc_impl ⟨35 * 10 ^ 18⟩ s))
     ∧ round_to DMAX 0 = MAX_INT ∧ round_to DMIN 0 = MIN_INT) :=
  ⟨by decide, round_to_spec ⟨35 * 10 ^ 18⟩ 0 (by decide)⟩

-- ===== C4: remainder semantics =====

/-- C4: `rem a b` returns `a` unchanged when `b.repr = 0` (a sentinel,
not an error), `0` when `a = MIN` and `b = -SMALLEST_STEP` (whose repr
is `-1`), and otherwise `from_repr(a.repr % b.repr)`; the truncated
remainder, when nonzero, carries the sign of the dividend `a`. -/
theorem rem_spec (a b : Dec19x19) :
    (rem a b =
      (if b.repr = 0 then a
       else if a = DMIN ∧ b = neg SMALLEST_STEP then ⟨0⟩
       else ⟨a.repr.tmod b.repr⟩))
    ∧ neg SMALLEST_STEP = ⟨-1⟩
    ∧ (Int.sign (a.repr.tmod b.repr) = 0 ∨
       Int.sign (a.repr.tmod b.repr) = Int.sign a.repr) := by
  refine ⟨rfl, by decide, ?_⟩
  rcases lt_trichotomy a.repr 0 with hneg | hzero | hpos
  · have hle := tmod_nonpos_of_neg a.repr b.repr hneg
    rcases eq_or_lt_of_le hle with he | hlt
    · left
      rw [he, Int.sign_zero]
    · right
      rw [Int.sign_eq_neg_one_of_neg hlt, Int.sign_eq_neg_one_of_neg hneg]
  · left
    rw [hzero, Int.zero_tmod, Int.sign_zero]
  · have hge : 0 ≤ a.repr.tmod b.repr := Int.tmod_nonneg b.repr hpos.le
    rcases eq_or_lt_of_le hge with he | hlt
    · left
      rw [← he, Int.sign_zero]
    · right
      rw [Int.sign_eq_one_of_pos hlt, Int.sign_eq_one_of_pos hpos]

-- ===== C5: checked operations that panic (code bug) =====

/-- C5 (code bug): `checked_log10_floor` guards with `repr >= 0` while
the inner `unchecked_log10_floor` asserts `repr > 0`, so at `repr = 0`
the checked form panics instead of returning `None`; and
`checked_pow(0, -1)` computes `Dec19x19!(1) / 0` with the panicking
unchecked division before the checked loop, so it panics instead of
returning `None`. Strictly negative inputs do return `None`. -/
theorem checked_panics_on_precondition_violation :
    checked_log10_floor ⟨0⟩ = PanicOr.panicked ∧
    checked_pow ⟨0⟩ (-1) = PanicOr.panicked ∧
    checked_log10_floor ⟨-1⟩ = PanicOr.ok none := by
  refine ⟨by decide, ?_, by decide⟩
  rfl

-- ===== C8: parsing the empty string (corrected) =====

/-- C8 counterexample: parsing the empty string does not fail; it
yields `Ok(0)`. -/
theorem parse_empty_counterexample :
    parse_dec19x19_internal [] = ParseResult.ok 0 := by
  decide

/-- C8 amended: `shift_decimal` substitutes `"0"` for the empty integer
and fractional parts, so the inner integer parses see `"0"` and the
empty string parses successfully to zero. -/
theorem parse_empty_amended :
    shift_decimal [] [] 0 = (['0'], ['0']) ∧
    parse_dec19x19_internal [] = ParseResult.ok 0 ∧
    parse_dec19x19_internal [] ≠ ParseResult.err ParseError.parseIntError := by
  refine ⟨by decide, by decide, by decide⟩

-- ===== C10: infallible conversions to u64 / u128 / i128 =====

/-- C10: the infallible conversions divide `repr` by `10^19` with
truncation toward zero and apply the Rust `as` cast: the `i128` target
receives the quotient itself, the unsigned targets receive the quotient
reduced modulo `2^64` (resp. `2^128`) — in particular the value `-1`
converts to `u64` as `2^64 - 1` — and for non-negative inputs the
unsigned targets receive the quotient exactly. -/
theorem into_int_casts (x : Dec19x19) (h : InI128 x.repr) :
    ((into_u64 x : Int) = x.repr.tdiv FRAC_SCALE % 2 ^ 64 ∧ into_u64 x < 2 ^ 64)
    ∧ ((into_u128 x : Int) = x.repr.tdiv FRAC_SCALE % 2 ^ 128 ∧ into_u128 x < 2 ^ 128)
    ∧ into_i128 x = x.repr.tdiv FRAC_SCALE
    ∧ (0 ≤ x.repr → (into_u64 x : Int) = x.repr.tdiv FRAC_SCALE
        ∧ (into_u128 x : Int) = x.repr.tdiv FRAC_SCALE)
    ∧ into_u64 ⟨-FRAC_SCALE⟩ = 2 ^ 64 - 1 := by
  have habs : x.repr.natAbs ≤ 2 ^ 127 := by
    unfold InI128 I128_MIN I128_MAX at h
    omega
  have hq : (x.repr.tdiv FRAC_SCALE).natAbs ≤ 17014118346046923173 := by
    rw [Int.natAbs_tdiv]
    show x.repr.natAbs / FRAC_SCALE.natAbs ≤ 17014118346046923173
    calc x.repr.natAbs / FRAC_SCALE.natAbs
        ≤ 2 ^ 127 / FRAC_SCALE.natAbs := Nat.div_le_div_right habs
      _ = 17014118346046923173 := by decide
  have h64 : (0 : Int) < 2 ^ 64 := by norm_num
  have h128 : (0 : Int) < 2 ^ 128 := by norm_num
  refine ⟨⟨?_, ?_⟩, ⟨?_, ?_⟩, rfl, ?_, by decide⟩
  · exact Int.toNat_of_nonneg (Int.emod_nonneg _ h64.ne')
  · have h1 := Int.emod_lt_of_pos (x.repr.tdiv FRAC_SCALE) h64
    have h2 := Int.emod_nonneg (x.repr.tdiv FRAC_SCALE) h64.ne'
    show (x.repr.tdiv FRAC_SCALE % 2 ^ 64).toNat < 2 ^ 64
    omega
  · exact Int.toNat_of_nonneg (Int.emod_nonneg _ h128.ne')
  · have h1 := Int.emod_lt_of_pos (x.repr.tdiv FRAC_SCALE) h128
    have h2 := Int.emod_nonneg (x.repr.tdiv FRAC_SCALE) h128.ne'
    show (x.repr.tdiv FRAC_SCALE % 2 ^ 128).toNat < 2 ^ 128
    omega
  · intro hx
    have hq0 : 0 ≤ x.repr.tdiv FRAC_SCALE :=
      Int.tdiv_nonneg hx (by unfold FRAC_SCALE FRAC_SCALE_N FRAC_PLACES; norm_num)
    have hqlt : x.repr.tdiv FRAC_SCALE < 2 ^ 64 := by omega
    have hqlt2 : x.repr.tdiv FRAC_SCALE < 2 ^ 128 := by omega
    constructor
    · show ((x.repr.tdiv FRAC_SCALE % 2 ^ 64).toNat : Int) = x.repr.tdiv FRAC_SCALE
      rw [Int.emod_eq_of_lt hq0 hqlt]
      exact Int.toNat_of_nonneg hq0
    · show ((x.repr.tdiv FRAC_SCALE % 2 ^ 128).toNat : Int) = x.repr.tdiv FRAC_SCALE
      rw [Int.emod_eq_of_lt hq0 hqlt2]
      exact Int.toNat_of_nonneg hq0

/-- Witness for C10 at `x = -1` (repr `-10^19`). -/
theorem into_int_casts_witness :
    InI128 (-FRAC_SCALE : Int) ∧
    (((into_u64 ⟨-FRAC_SCALE⟩ : Int) = (-FRAC_SCALE : Int).tdiv FRAC_SCALE % 2 ^ 64
        ∧ into_u64 ⟨-FRAC_SCALE⟩ < 2 ^ 64)
     ∧ ((into_u128 ⟨-FRAC_SCALE⟩ : Int) = (-FRAC_SCALE : Int).tdiv FRAC_SCALE % 2 ^ 128
        ∧ into_u128 ⟨-FRAC_SCALE⟩ < 2 ^ 128)
     ∧ into_i128 ⟨-FRAC_SCALE⟩ = (-FRAC_SCALE : Int).tdiv FRAC_SCALE
     ∧ (0 ≤ (-FRAC_SCALE : Int) → (into_u64 ⟨-FRAC_SCALE⟩ : Int) = (-FRAC_SCALE : Int).tdiv FRAC_SCALE
        ∧ (into_u128 ⟨-FRAC_SCALE⟩ : Int) = (-FRAC_SCALE : Int).tdiv FRAC_SCALE)
     ∧ into_u64 ⟨-FRAC_SCALE⟩ = 2 ^ 64 - 1) :=
  ⟨by decide, into_int_casts ⟨-FRAC_SCALE⟩ (by decide)⟩

-- ===== C7: width padding (corrected) =====

/-- C7 counterexample: with `width = 5` and fill `' '`, the value `1`
formats under `align = Right` as `"1    "` (padding appended on the
right) and under `align = Left` as `"    1"` (padding inserted on the
left) — the opposite of the claimed sides. -/
theorem format_align_counterexample :
    format ⟨10 ^ 19⟩ ⟨none, none, some 5, some Align.right, ' ', false⟩
      = ['1', ' ', ' ', ' ', ' '] ∧
    format ⟨10 ^ 19⟩ ⟨none, none, some 5, some Align.left, ' ', false⟩
      = [' ', ' ', ' ', ' ', '1'] := by
  constructor <;> decide

/-- C7 amended: the formatter pads the rendered string to the
configured width with the fill character, but with the sides swapped
relative to the claim: `align = Right` appends the padding on the right,
`align = Center` splits it (left half rounded down), and `align = Left`
as well as an unset `align` insert the padding on the left. -/
theorem format_padding_spec (x : Dec19x19) (f : Formatter) (w : Nat)
    (hw : f.width = some w) :
    format x f =
      (let core := format x (Formatter.mk f.separator f.precision none f.align f.fill f.sign_plus)
       let padding := w - utf8Len core
       match f.align with
       | some Align.right => core ++ List.replicate padding f.fill
       | some Align.center =>
         List.replicate (padding / 2) f.fill ++ core ++ List.replicate (padding - padding / 2) f.fill
       | _ => List.replicate padding f.fill ++ core) := by
  obtain ⟨sep, prec, width, al, fill, sp⟩ := f
  simp only at hw
  subst hw
  rcases al with _ | al
  · rfl
  · cases al <;> rfl

/-- Witness for C7 at value `1`, width 5, `align = Right`. -/
theorem format_padding_spec_witness :
    format ⟨10 ^ 19⟩ ⟨none, none, some 5, some Align.right, ' ', false⟩ =
      (let core := format ⟨10 ^ 19⟩
        (Formatter.mk none none none (some Align.right) ' ' false)
       let padding := 5 - utf8Len core
       match some Align.right with
       | some Align.right => core ++ List.replicate padding ' '
       | some Align.center =>
         List.replicate (padding / 2) ' ' ++ core ++ List.replicate (padding - padding / 2) ' '
       | _ => List.replicate padding ' ' ++ core) :=
  format_padding_spec ⟨10 ^ 19⟩ ⟨none, none, some 5, some Align.right, ' ', false⟩ 5 rfl

-- ===== C1: the two multiplication backends agree =====

/-- Reference value of an exact (non-overflowing) product: sign by xor
of the operand signs, magnitude `|a| * |b| / 10^19` truncated. -/
def mul_exact_repr (a b : Dec19x19) : Int :=
  if (decide (a.repr < 0)) ^^ (decide (b.repr < 0)) then
    -((a.repr.natAbs * b.repr.natAbs / FRAC_SCALE_N : Nat) : Int)
  else
    ((a.repr.natAbs * b.repr.natAbs / FRAC_SCALE_N : Nat) : Int)

theorem frac_scale_n_lit : FRAC_SCALE_N = 10000000000000000000 := by
  norm_num [FRAC_SCALE_N, FRAC_PLACES]

theorem frac_scale_n_pos : 0 < FRAC_SCALE_N := by
  rw [frac_scale_n_lit]
  norm_num

/-- Exact magnitude decomposition behind both multiplication backends:
`(ua * ub) / S = (ua/S)(ub/S) S + ((ua/S)(ub%S) + (ub/S)(ua%S)) + (ua%S)(ub%S)/S`. -/
theorem mul_mag_decomp (ua ub : Nat) :
    ua * ub / FRAC_SCALE_N =
      ua / FRAC_SCALE_N * (ub / FRAC_SCALE_N) * FRAC_SCALE_N
      + (ua / FRAC_SCALE_N * (ub % FRAC_SCALE_N) + ub / FRAC_SCALE_N * (ua % FRAC_SCALE_N))
      + ua % FRAC_SCALE_N * (ub % FRAC_SCALE_N) / FRAC_SCALE_N := by
  have hpos := frac_scale_n_pos
  set S := FRAC_SCALE_N with hS
  set q1 := ua / S with hq1
  set r1 := ua % S with hr1
  set q2 := ub / S with hq2
  set r2 := ub % S with hr2
  have h1 : S * q1 + r1 = ua := by rw [hq1, hr1]; exact Nat.div_add_mod ua S
  have h2 : S * q2 + r2 = ub := by rw [hq2, hr2]; exact Nat.div_add_mod ub S
  calc ua * ub / S = (S * q1 + r1) * (S * q2 + r2) / S := by rw [h1, h2]
    _ = (S * (q1 * q2 * S + (q1 * r2 + q2 * r1)) + r1 * r2) / S := by ring_nf
    _ = q1 * q2 * S + (q1 * r2 + q2 * r1) + r1 * r2 / S := Nat.mul_add_div hpos _ _

/-- All intermediate products of the multiplication backends stay below
`2^128` whenever the final magnitude fits in `i128`. -/
theorem mul_bounds (ua ub : Nat) (h : ua * ub / FRAC_SCALE_N ≤ 2 ^ 127 - 1) :
    ua / FRAC_SCALE_N * (ub / FRAC_SCALE_N) < 2 ^ 128
    ∧ ua / FRAC_SCALE_N * (ub / FRAC_SCALE_N) * FRAC_SCALE_N < 2 ^ 128
    ∧ ua / FRAC_SCALE_N * (ub % FRAC_SCALE_N) < 2 ^ 128
    ∧ ub / FRAC_SCALE_N * (ua % FRAC_SCALE_N) < 2 ^ 128
    ∧ ua / FRAC_SCALE_N * (ub % FRAC_SCALE_N) + ub / FRAC_SCALE_N * (ua % FRAC_SCALE_N) < 2 ^ 128
    ∧ ua % FRAC_SCALE_N * (ub % FRAC_SCALE_N) < 2 ^ 128
    ∧ ua / FRAC_SCALE_N * (ub / FRAC_SCALE_N) * FRAC_SCALE_N
        + (ua / FRAC_SCALE_N * (ub % FRAC_SCALE_N) + ub / FRAC_SCALE_N * (ua % FRAC_SCALE_N))
        < 2 ^ 128
    ∧ ua / FRAC_SCALE_N * (ub / FRAC_SCALE_N) * FRAC_SCALE_N
        + (ua / FRAC_SCALE_N * (ub % FRAC_SCALE_N) + ub / FRAC_SCALE_N * (ua % FRAC_SCALE_N))
        + ua % FRAC_SCALE_N * (ub % FRAC_SCALE_N) / FRAC_SCALE_N ≤ 2 ^ 127 - 1 := by
  have hd := mul_mag_decomp ua ub
  have hpos := frac_scale_n_pos
  have hr1 : ua % FRAC_SCALE_N < FRAC_SCALE_N := Nat.mod_lt ua hpos
  have hr2 : ub % FRAC_SCALE_N < FRAC_SCALE_N := Nat.mod_lt ub hpos
  have hfr : ua % FRAC_SCALE_N * (ub % FRAC_SCALE_N) < 2 ^ 128 := by
    calc ua % FRAC_SCALE_N * (ub % FRAC_SCALE_N)
        ≤ (FRAC_SCALE_N - 1) * (FRAC_SCALE_N - 1) := Nat.mul_le_mul (by omega) (by omega)
      _ < 2 ^ 128 := by rw [frac_scale_n_lit]; norm_num
  have hQ : ua / FRAC_SCALE_N * (ub / FRAC_SCALE_N)
      ≤ ua / FRAC_SCALE_N * (ub / FRAC_SCALE_N) * FRAC_SCALE_N :=
    Nat.le_mul_of_pos_right _ hpos
  rw [hd] at h
  rw [frac_scale_n_lit] at *
  refine ⟨by omega, by omega, by omega, by omega, by omega, hfr, by omega, by omega⟩

theorem wrap_eq_of_lt {n : Nat} (h : n < 2 ^ 128) : wrapU128 n = n :=
  Nat.mod_eq_of_lt h

/-- The wrapped magnitude chain of `unchecked_mul_no_opt` computes the
exact magnitude when the product fits in `i128`. -/
theorem no_opt_mag_eq (ua ub : Nat) (h : ua * ub / FRAC_SCALE_N ≤ 2 ^ 127 - 1) :
    wrapU128 (wrapU128 (wrapU128 (wrapU128 (ua / FRAC_SCALE_N * (ub / FRAC_SCALE_N)) * FRAC_SCALE_N)
        + wrapU128 (wrapU128 (ua / FRAC_SCALE_N * (ub % FRAC_SCALE_N))
            + wrapU128 (ub / FRAC_SCALE_N * (ua % FRAC_SCALE_N))))
      + wrapU128 (ua % FRAC_SCALE_N * (ub % FRAC_SCALE_N)) / FRAC_SCALE_N)
    = ua * ub / FRAC_SCALE_N := by
  obtain ⟨b1, b2, b3, b4, b5, b6, b7, b8⟩ := mul_bounds ua ub h
  rw [wrap_eq_of_lt b1, wrap_eq_of_lt b2, wrap_eq_of_lt b3, wrap_eq_of_lt b4,
    wrap_eq_of_lt b5, wrap_eq_of_lt b6, wrap_eq_of_lt b7,
    wrap_eq_of_lt (by omega : _ < 2 ^ 128), mul_mag_decomp ua ub]

/-- The branched magnitude of `unchecked_mul_opt` also computes the
exact magnitude when the product fits in `i128`. -/
theorem opt_mag_eq (ua ub : Nat) (h : ua * ub / FRAC_SCALE_N ≤ 2 ^ 127 - 1) :
    (if ub % FRAC_SCALE_N = 0 then
      wrapU128 (ua * (ub / FRAC_SCALE_N))
    else if ub / FRAC_SCALE_N = 0 then
      wrapU128 (wrapU128 (ua / FRAC_SCALE_N * (ub % FRAC_SCALE_N))
        + wrapU128 (ua % FRAC_SCALE_N * (ub % FRAC_SCALE_N)) / FRAC_SCALE_N)
    else
      if ua % FRAC_SCALE_N = 0 then
        wrapU128 (wrapU128 (wrapU128 (ua / FRAC_SCALE_N * (ub / FRAC_SCALE_N)) * FRAC_SCALE_N)
          + wrapU128 (ua / FRAC_SCALE_N * (ub % FRAC_SCALE_N)))
      else
        wrapU128 (wrapU128 (wrapU128 (wrapU128 (ua / FRAC_SCALE_N * (ub / FRAC_SCALE_N)) * FRAC_SCALE_N)
            + wrapU128 (wrapU128 (ua / FRAC_SCALE_N * (ub % FRAC_SCALE_N))
                + wrapU128 (ub / FRAC_SCALE_N * (ua % FRAC_SCALE_N))))
          + wrapU128 (ua % FRAC_SCALE_N * (ub % FRAC_SCALE_N)) / FRAC_SCALE_N))
    = ua * ub / FRAC_SCALE_N := by
  have hpos := frac_scale_n_pos
  obtain ⟨b1, b2, b3, b4, b5, b6, b7, b8⟩ := mul_bounds ua ub h
  have hd := mul_mag_decomp ua ub
  by_cases hbf : ub % FRAC_SCALE_N = 0
  · rw [if_pos hbf]
    have hdm := Nat.div_add_mod ub FRAC_SCALE_N
    have hub : FRAC_SCALE_N * (ub / FRAC_SCALE_N) = ub := by omega
    have hexact : ua * (ub / FRAC_SCALE_N) = ua * ub / FRAC_SCALE_N := by
      conv_rhs => rw [← hub]
      rw [show ua * (FRAC_SCALE_N * (ub / FRAC_SCALE_N)) = ua * (ub / FRAC_SCALE_N) * FRAC_SCALE_N from by ring]
      rw [Nat.mul_div_cancel _ hpos]
    have hlt : ua * (ub / FRAC_SCALE_N) < 2 ^ 128 := by
      rw [hexact]
      omega
    rw [wrap_eq_of_lt hlt, hexact]
  · rw [if_neg hbf]
    by_cases hbi : ub / FRAC_SCALE_N = 0
    · rw [if_pos hbi]
      rw [wrap_eq_of_lt b3, wrap_eq_of_lt b6]
      rw [hbi] at hd
      simp only [Nat.zero_mul, Nat.mul_zero, Nat.zero_add, Nat.add_zero] at hd
      have hlt : ua / FRAC_SCALE_N * (ub % FRAC_SCALE_N)
          + ua % FRAC_SCALE_N * (ub % FRAC_SCALE_N) / FRAC_SCALE_N < 2 ^ 128 := by
        omega
      rw [wrap_eq_of_lt hlt, hd]
    · rw [if_neg hbi]
      by_cases haf : ua % FRAC_SCALE_N = 0
      · rw [if_pos haf]
        rw [wrap_eq_of_lt b1, wrap_eq_of_lt b2, wrap_eq_of_lt b3]
        rw [haf] at hd
        simp only [Nat.zero_mul, Nat.mul_zero, Nat.zero_add, Nat.add_zero,
          Nat.zero_div] at hd
        have hlt : ua / FRAC_SCALE_N * (ub / FRAC_SCALE_N) * FRAC_SCALE_N
            + ua / FRAC_SCALE_N * (ub % FRAC_SCALE_N) < 2 ^ 128 := by
          omega
        rw [wrap_eq_of_lt hlt, hd]
      · rw [if_neg haf]
        exact no_opt_mag_eq ua ub h

theorem u128ToI128_of_le {n : Nat} (h : n ≤ 2 ^ 127 - 1) :
    u128ToI128 n = some (n : Int) := by
  unfold u128ToI128 I128_MAX
  have h2 : ((n : Nat) : Int) ≤ ((2 ^ 127 - 1 : Nat) : Int) := by exact_mod_cast h
  have h3 : ((2 ^ 127 - 1 : Nat) : Int) = 2 ^ 127 - 1 := by norm_num
  rw [if_pos (by omega)]

/-- `unchecked_mul_no_opt` computes the exact product when it fits. -/
theorem unchecked_mul_no_opt_eq (a b : Dec19x19)
    (h : a.repr.natAbs * b.repr.natAbs / FRAC_SCALE_N ≤ 2 ^ 127 - 1) :
    unchecked_mul_no_opt a b = some ⟨mul_exact_repr a b⟩ := by
  simp only [unchecked_mul_no_opt]
  rw [no_opt_mag_eq _ _ h, u128ToI128_of_le h]
  rfl

/-- `unchecked_mul_opt` computes the exact product when it fits. -/
theorem unchecked_mul_opt_eq (a b : Dec19x19)
    (h : a.repr.natAbs * b.repr.natAbs / FRAC_SCALE_N ≤ 2 ^ 127 - 1) :
    unchecked_mul_opt a b = some ⟨mul_exact_repr a b⟩ := by
  simp only [unchecked_mul_opt]
  rw [opt_mag_eq _ _ h, u128ToI128_of_le h]
  rfl

theorem checkedMulU128_of_lt {x y : Nat} (h : x * y < 2 ^ 128) :
    checkedMulU128 x y = some (x * y) := by
  unfold checkedMulU128
  rw [if_pos h]

theorem checkedAddU128_of_lt {x y : Nat} (h : x + y < 2 ^ 128) :
    checkedAddU128 x y = some (x + y) := by
  unfold checkedAddU128
  rw [if_pos h]

theorem checkedNegI128_of_le {n : Nat} (h : n ≤ 2 ^ 127 - 1) :
    checkedNegI128 (n : Int) = some (-(n : Int)) := by
  unfold checkedNegI128 InI128 I128_MIN I128_MAX
  have h2 : ((n : Nat) : Int) ≤ ((2 ^ 127 - 1 : Nat) : Int) := by exact_mod_cast h
  have h3 : ((2 ^ 127 - 1 : Nat) : Int) = 2 ^ 127 - 1 := by norm_num
  have h4 : (0 : Int) ≤ (n : Int) := Int.natCast_nonneg n
  rw [if_pos (by constructor <;> omega)]

theorem mul_exact_int_rhs (ua ub : Nat) (hbf : ub % FRAC_SCALE_N = 0) :
    ua * (ub / FRAC_SCALE_N) = ua * ub / FRAC_SCALE_N := by
  have hpos := frac_scale_n_pos
  have hdm := Nat.div_add_mod ub FRAC_SCALE_N
  have hub : FRAC_SCALE_N * (ub / FRAC_SCALE_N) = ub := by omega
  conv_rhs => rw [← hub]
  rw [show ua * (FRAC_SCALE_N * (ub / FRAC_SCALE_N)) = ua * (ub / FRAC_SCALE_N) * FRAC_SCALE_N from by ring]
  rw [Nat.mul_div_cancel _ hpos]

/-- `checked_mul_no_opt` computes the exact product when it fits. -/
theorem checked_mul_no_opt_eq (a b : Dec19x19)
    (h : a.repr.natAbs * b.repr.natAbs / FRAC_SCALE_N ≤ 2 ^ 127 - 1) :
    checked_mul_no_opt a b = some ⟨mul_exact_repr a b⟩ := by
  obtain ⟨b1, b2, b3, b4, b5, b6, b7, b8⟩ := mul_bounds a.repr.natAbs b.repr.natAbs h
  have hd := mul_mag_decomp a.repr.natAbs b.repr.natAbs
  have e1 := checkedMulU128_of_lt b1
  have e2 := checkedMulU128_of_lt b3
  have e3 := checkedMulU128_of_lt b4
  have e4 := checkedAddU128_of_lt b5
  have e5 := checkedMulU128_of_lt b6
  have e6 := checkedMulU128_of_lt b2
  have e7 := checkedAddU128_of_lt b7
  have e8 := checkedAddU128_of_lt (lt_of_le_of_lt b8 (by norm_num) :
    a.repr.natAbs / FRAC_SCALE_N * (b.repr.natAbs / FRAC_SCALE_N) * FRAC_SCALE_N
      + (a.repr.natAbs / FRAC_SCALE_N * (b.repr.natAbs % FRAC_SCALE_N)
         + b.repr.natAbs / FRAC_SCALE_N * (a.repr.natAbs % FRAC_SCALE_N))
      + a.repr.natAbs % FRAC_SCALE_N * (b.repr.natAbs % FRAC_SCALE_N) / FRAC_SCALE_N < 2 ^ 128)
  rw [← hd] at e8
  have e9 := u128ToI128_of_le h
  simp only [checked_mul_no_opt, e1, e2, e3, e4, e5, e6, e7, e8, e9,
    Option.bind_eq_bind, Option.some_bind, Option.pure_def]
  by_cases hneg : (decide (a.repr < 0) ^^ decide (b.repr < 0)) = true
  · have en := checkedNegI128_of_le (n := a.repr.natAbs * b.repr.natAbs / FRAC_SCALE_N) h
    simp only [hneg, if_true, en, Option.some_bind, mul_exact_repr]
  · have hneg2 : (decide (a.repr < 0) ^^ decide (b.repr < 0)) = false := by
      revert hneg
      cases (decide (a.repr < 0) ^^ decide (b.repr < 0)) <;> simp
    simp only [hneg2, Bool.false_eq_true, if_false, mul_exact_repr]

/-- `checked_mul_opt` computes the exact product when it fits. -/
theorem checked_mul_opt_eq (a b : Dec19x19)
    (h : a.repr.natAbs * b.repr.natAbs / FRAC_SCALE_N ≤ 2 ^ 127 - 1) :
    checked_mul_opt a b = some ⟨mul_exact_repr a b⟩ := by
  obtain ⟨b1, b2, b3, b4, b5, b6, b7, b8⟩ := mul_bounds a.repr.natAbs b.repr.natAbs h
  have hd := mul_mag_decomp a.repr.natAbs b.repr.natAbs
  have e9 := u128ToI128_of_le h
  have hfin : ∀ r : Option Dec19x19,
      r = some ⟨((a.repr.natAbs * b.repr.natAbs / FRAC_SCALE_N : Nat) : Int)⟩ →
      (Option.bind r fun v =>
        if (decide (a.repr < 0) ^^ decide (b.repr < 0)) = true then
          Option.bind (checkedNegI128 v.repr) fun rn => some (⟨rn⟩ : Dec19x19)
        else some v) = some ⟨mul_exact_repr a b⟩ := by
    intro r hr
    subst hr
    by_cases hneg : (decide (a.repr < 0) ^^ decide (b.repr < 0)) = true
    · have en := checkedNegI128_of_le (n := a.repr.natAbs * b.repr.natAbs / FRAC_SCALE_N) h
      simp only [Option.some_bind, hneg, if_true, en, mul_exact_repr]
    · have hneg2 : (decide (a.repr < 0) ^^ decide (b.repr < 0)) = false := by
        revert hneg
        cases (decide (a.repr < 0) ^^ decide (b.repr < 0)) <;> simp
      simp only [Option.some_bind, hneg2, Bool.false_eq_true, if_false, mul_exact_repr]
  by_cases hbf : b.repr.natAbs % FRAC_SCALE_N = 0
  · have hm : a.repr.natAbs * (b.repr.natAbs / FRAC_SCALE_N)
        = a.repr.natAbs * b.repr.natAbs / FRAC_SCALE_N := mul_exact_int_rhs _ _ hbf
    have e0 : checkedMulU128 a.repr.natAbs (b.repr.natAbs / FRAC_SCALE_N)
        = some (a.repr.natAbs * b.repr.natAbs / FRAC_SCALE_N) := by
      rw [checkedMulU128_of_lt (by rw [hm]; omega), hm]
    simp only [checked_mul_opt, hbf, if_true, e0, e9,
      Option.bind_eq_bind, Option.some_bind, Option.pure_def]
    exact hfin _ rfl
  · by_cases hbi : b.repr.natAbs / FRAC_SCALE_N = 0
    · have hdz := hd
      rw [hbi] at hdz
      simp only [Nat.zero_mul, Nat.mul_zero, Nat.zero_add, Nat.add_zero] at hdz
      have e2 := checkedMulU128_of_lt b3
      have e5 := checkedMulU128_of_lt b6
      have esum : checkedAddU128 (a.repr.natAbs / FRAC_SCALE_N * (b.repr.natAbs % FRAC_SCALE_N))
          (a.repr.natAbs % FRAC_SCALE_N * (b.repr.natAbs % FRAC_SCALE_N) / FRAC_SCALE_N)
          = some (a.repr.natAbs * b.repr.natAbs / FRAC_SCALE_N) := by
        rw [checkedAddU128_of_lt (by omega), ← hdz]
      simp only [checked_mul_opt, hbf, Bool.false_eq_true, if_false, hbi, if_true,
        e2, e5, esum, e9, Option.bind_eq_bind, Option.some_bind, Option.pure_def]
      exact hfin _ rfl
    · by_cases haf : a.repr.natAbs % FRAC_SCALE_N = 0
      · have hdz := hd
        rw [haf] at hdz
        simp only [Nat.zero_mul, Nat.mul_zero, Nat.zero_add, Nat.add_zero,
          Nat.zero_div] at hdz
        have e1 := checkedMulU128_of_lt b1
        have e6 := checkedMulU128_of_lt b2
        have e2 := checkedMulU128_of_lt b3
        have esum : checkedAddU128
            (a.repr.natAbs / FRAC_SCALE_N * (b.repr.natAbs / FRAC_SCALE_N) * FRAC_SCALE_N)
            (a.repr.natAbs / FRAC_SCALE_N * (b.repr.natAbs % FRAC_SCALE_N))
            = some (a.repr.natAbs * b.repr.natAbs / FRAC_SCALE_N) := by
          rw [checkedAddU128_of_lt (by omega), ← hdz]
        simp only [checked_mul_opt, hbf, hbi, Bool.false_eq_true, if_false, haf, if_true,
          e1, e6, e2, esum, e9, Option.bind_eq_bind, Option.some_bind, Option.pure_def]
        exact hfin _ rfl
      · have e1 := checkedMulU128_of_lt b1
        have e6 := checkedMulU128_of_lt b2
        have e2 := checkedMulU128_of_lt b3
        have e3 := checkedMulU128_of_lt b4
        have e4 := checkedAddU128_of_lt b5
        have e5 := checkedMulU128_of_lt b6
        have e7 := checkedAddU128_of_lt b7
        have e8 := checkedAddU128_of_lt (lt_of_le_of_lt b8 (by norm_num) :
          a.repr.natAbs / FRAC_SCALE_N * (b.repr.natAbs / FRAC_SCALE_N) * FRAC_SCALE_N
            + (a.repr.natAbs / FRAC_SCALE_N * (b.repr.natAbs % FRAC_SCALE_N)
               + b.repr.natAbs / FRAC_SCALE_N * (a.repr.natAbs % FRAC_SCALE_N))
            + a.repr.natAbs % FRAC_SCALE_N * (b.repr.natAbs % FRAC_SCALE_N) / FRAC_SCALE_N < 2 ^ 128)
        rw [← hd] at e8
        simp only [checked_mul_opt, hbf, hbi, haf, Bool.false_eq_true, if_false,
          e1, e6, e2, e3, e4, e5, e7, e8, e9,
          Option.bind_eq_bind, Option.some_bind, Option.pure_def]
        exact hfin _ rfl

/-- C1: whenever the mathematical product of two Dec19x19 values is
representable (its truncated magnitude fits in `i128`), the optimized
and general multiplication backends agree: the unchecked forms return
the same value without panicking, and the checked forms return `Some`
of that same value. -/
theorem mul_backends_agree (a b : Dec19x19)
    (ha : InI128 a.repr) (hb : InI128 b.repr)
    (h : a.repr.natAbs * b.repr.natAbs / FRAC_SCALE_N ≤ 2 ^ 127 - 1) :
    unchecked_mul_opt a b = unchecked_mul_no_opt a b
    ∧ checked_mul_opt a b = checked_mul_no_opt a b
    ∧ checked_mul_opt a b = some ⟨mul_exact_repr a b⟩
    ∧ unchecked_mul_opt a b = some ⟨mul_exact_repr a b⟩ := by
  rw [unchecked_mul_opt_eq a b h, unchecked_mul_no_opt_eq a b h,
    checked_mul_opt_eq a b h, checked_mul_no_opt_eq a b h]
  exact ⟨rfl, rfl, rfl, rfl⟩

/-- Witness for C1 at `a = 2`, `b = -3`. -/
theorem mul_backends_agree_witness :
    (InI128 (2 * 10 ^ 19 : Int) ∧ InI128 (-3 * 10 ^ 19 : Int)
      ∧ (2 * 10 ^ 19 : Int).natAbs * (-3 * 10 ^ 19 : Int).natAbs / FRAC_SCALE_N ≤ 2 ^ 127 - 1)
    ∧ (unchecked_mul_opt ⟨2 * 10 ^ 19⟩ ⟨-3 * 10 ^ 19⟩ = unchecked_mul_no_opt ⟨2 * 10 ^ 19⟩ ⟨-3 * 10 ^ 19⟩
       ∧ checked_mul_opt ⟨2 * 10 ^ 19⟩ ⟨-3 * 10 ^ 19⟩ = checked_mul_no_opt ⟨2 * 10 ^ 19⟩ ⟨-3 * 10 ^ 19⟩
       ∧ checked_mul_opt ⟨2 * 10 ^ 19⟩ ⟨-3 * 10 ^ 19⟩ = some ⟨mul_exact_repr ⟨2 * 10 ^ 19⟩ ⟨-3 * 10 ^ 19⟩⟩
       ∧ unchecked_mul_opt ⟨2 * 10 ^ 19⟩ ⟨-3 * 10 ^ 19⟩ = some ⟨mul_exact_repr ⟨2 * 10 ^ 19⟩ ⟨-3 * 10 ^ 19⟩⟩) :=
  ⟨⟨by decide, by decide, by decide⟩,
   mul_backends_agree ⟨2 * 10 ^ 19⟩ ⟨-3 * 10 ^ 19⟩ (by decide) (by decide) (by decide)⟩

-- ===== C9: termination of the sqrt and ln loops =====

/-- Nat form of one Newton-Raphson step on the scaled radicand `ns`. -/
def iterN (ns g : Nat) : Nat := (g + ns / g) / 2

/-- Integer square roots of positive numbers are positive. -/
theorem sqrt_ge_one {ns : Nat} (hns : 1 ≤ ns) : 1 ≤ ns.sqrt := by
  by_contra hc
  push_neg at hc
  have h0 : ns.sqrt = 0 := by omega
  have h1 := Nat.lt_succ_sqrt ns
  rw [h0] at h1
  omega

/-- Fixed a positive guess, the Newton step never drops below the
integer square root of the radicand. -/
theorem newton_iter_ge_sqrt (ns g : Nat) (hg : 1 ≤ g) : ns.sqrt ≤ iterN ns g := by
  by_contra hlt
  push_neg at hlt
  unfold iterN at hlt
  have hdm := Nat.div_add_mod ns g
  have hmod : ns % g < g := Nat.mod_lt ns hg
  have h5 : ns.sqrt * ns.sqrt ≤ ns := Nat.sqrt_le ns
  have h1 : g + ns / g + 1 ≤ 2 * ns.sqrt := by omega
  have h2 : ns < g * (ns / g) + g := by omega
  have key : ∀ G Q S N : Int, 0 ≤ G → 0 ≤ Q → 0 ≤ S →
      G + Q + 1 ≤ 2 * S → N < G * Q + G → S * S ≤ N → False := by
    intro G Q S N hG hQ hS k1 k2 k5
    nlinarith [mul_nonneg (by linarith : (0 : Int) ≤ 2 * S - (G + Q + 1))
        (by linarith : (0 : Int) ≤ 2 * S + (G + Q + 1)),
      sq_nonneg (G - Q - 1)]
  exact key g (ns / g) ns.sqrt ns (by positivity) (by positivity) (by positivity)
    (by exact_mod_cast h1) (by exact_mod_cast h2) (by exact_mod_cast h5)

/-- Above the integer square root, the Newton step strictly decreases. -/
theorem newton_iter_lt (ns g : Nat) (hg : ns.sqrt + 1 ≤ g) : iterN ns g ≤ g - 1 := by
  have hg0 : 0 < g := by omega
  have hns : ns < (ns.sqrt + 1) * g := by
    have h1 : ns < (ns.sqrt + 1) * (ns.sqrt + 1) := Nat.lt_succ_sqrt ns
    calc ns < (ns.sqrt + 1) * (ns.sqrt + 1) := h1
      _ ≤ (ns.sqrt + 1) * g := Nat.mul_le_mul_left _ hg
  have hq : ns / g < ns.sqrt + 1 := (Nat.div_lt_iff_lt_mul hg0).mpr (by linarith [hns])
  unfold iterN
  omega

/-- At the integer square root, the Newton step moves up by at most 1,
so the loop stopping condition holds there. -/
theorem newton_iter_at_sqrt (ns : Nat) (hns : 1 ≤ ns) :
    iterN ns ns.sqrt ≤ ns.sqrt + 1 := by
  have hs := sqrt_ge_one hns
  have hub : ns ≤ ns.sqrt * ns.sqrt + 2 * ns.sqrt := by
    have := Nat.lt_succ_sqrt ns
    nlinarith
  have hq : ns / ns.sqrt ≤ ns.sqrt + 2 := by
    have h1 : ns / ns.sqrt ≤ (ns.sqrt * ns.sqrt + 2 * ns.sqrt) / ns.sqrt :=
      Nat.div_le_div_right hub
    have h2 : (ns.sqrt * ns.sqrt + 2 * ns.sqrt) / ns.sqrt = ns.sqrt + 2 := by
      rw [show ns.sqrt * ns.sqrt + 2 * ns.sqrt = ns.sqrt * (ns.sqrt + 2) from by ring]
      exact Nat.mul_div_cancel_left _ (by omega)
    omega
  unfold iterN
  omega

/-- Nat form of the Newton-Raphson loop of `unchecked_sqrt`. -/
def sqrt_goN (ns : Nat) : Nat → Nat → Option Nat
  | 0, _ => none
  | fuel + 1, g =>
    let g2 := iterN ns g
    if g - g2 ≤ 1 ∧ g2 - g ≤ 1 then some g2 else sqrt_goN ns fuel g2

/-- The Int Newton step agrees with the Nat Newton step on
non-negative inputs. -/
theorem sqrt_iter_eq (M g : Int) (hM : 0 ≤ M * FRAC_SCALE) (hg : 0 ≤ g) :
    sqrt_iter M g = ((iterN (M * FRAC_SCALE).toNat g.toNat : Nat) : Int) := by
  obtain ⟨ns, hns⟩ : ∃ n : Nat, M * FRAC_SCALE = (n : Int) :=
    ⟨(M * FRAC_SCALE).toNat, (Int.toNat_of_nonneg hM).symm⟩
  obtain ⟨gn, hgn⟩ : ∃ n : Nat, g = (n : Int) :=
    ⟨g.toNat, (Int.toNat_of_nonneg hg).symm⟩
  unfold sqrt_iter iterN
  rw [hns, hgn, Int.toNat_natCast, Int.toNat_natCast]
  rw [← Int.ofNat_tdiv]
  rw [show ((gn : Int) + ((ns / gn : Nat) : Int)) = (((gn + ns / gn : Nat)) : Int) from by
    push_cast
    ring]
  rw [show (2 : Int) = ((2 : Nat) : Int) from rfl]
  rw [← Int.ofNat_tdiv]

/-- The Int loop agrees with the Nat loop on positive inputs. -/
theorem sqrt_go_eq_goN (M : Int) (hM : 1 ≤ M) :
    ∀ fuel (g : Int), 1 ≤ g →
      sqrt_go M fuel g = (sqrt_goN (M * FRAC_SCALE).toNat fuel g.toNat).map (fun n => (n : Int)) := by
  have hS : (1 : Int) ≤ FRAC_SCALE := by norm_num [FRAC_SCALE, FRAC_SCALE_N, FRAC_PLACES]
  have hMS : 1 ≤ M * FRAC_SCALE := by nlinarith
  have hns1 : 1 ≤ (M * FRAC_SCALE).toNat := by omega
  intro fuel
  induction fuel with
  | zero => intro g hg; rfl
  | succ f ih =>
    intro g hg
    have hiter := sqrt_iter_eq M g (by omega) (by omega)
    have hiter_ge : 1 ≤ iterN (M * FRAC_SCALE).toNat g.toNat :=
      le_trans (sqrt_ge_one hns1) (newton_iter_ge_sqrt _ _ (by omega))
    show (let g2 := sqrt_iter M g;
      if (g - g2).natAbs ≤ 1 then some g2 else sqrt_go M f g2) = _
    rw [show sqrt_goN (M * FRAC_SCALE).toNat (f + 1) g.toNat
      = (let g2 := iterN (M * FRAC_SCALE).toNat g.toNat;
         if g.toNat - g2 ≤ 1 ∧ g2 - g.toNat ≤ 1 then some g2
         else sqrt_goN (M * FRAC_SCALE).toNat f g2) from rfl]
    simp only [hiter]
    have hcond : ((g - ((iterN (M * FRAC_SCALE).toNat g.toNat : Nat) : Int)).natAbs ≤ 1)
        ↔ (g.toNat - iterN (M * FRAC_SCALE).toNat g.toNat ≤ 1
           ∧ iterN (M * FRAC_SCALE).toNat g.toNat - g.toNat ≤ 1) := by
      omega
    by_cases hc : (g - ((iterN (M * FRAC_SCALE).toNat g.toNat : Nat) : Int)).natAbs ≤ 1
    · rw [if_pos hc, if_pos (hcond.mp hc)]
      rfl
    · rw [if_neg hc, if_neg (fun h => hc (hcond.mpr h))]
      rw [ih _ (by exact_mod_cast hiter_ge)]
      rw [Int.toNat_natCast]

/-- The Nat Newton loop terminates from any positive seed. -/
theorem sqrt_goN_terminates (ns : Nat) (hns : 1 ≤ ns) :
    ∀ g : Nat, 1 ≤ g → ∃ fuel, (sqrt_goN ns fuel g).isSome = true := by
  have hs1 := sqrt_ge_one hns
  have key : ∀ k g, 1 ≤ g → ns.sqrt ≤ g → g - ns.sqrt ≤ k →
      ∃ fuel, (sqrt_goN ns fuel g).isSome = true := by
    intro k
    induction k with
    | zero =>
      intro g hg hsg hk
      have hgs : g = ns.sqrt := by omega
      refine ⟨1, ?_⟩
      have hA := newton_iter_ge_sqrt ns g hg
      have hC : iterN ns g ≤ g + 1 := by
        rw [hgs]
        exact newton_iter_at_sqrt ns hns
      show (if g - iterN ns g ≤ 1 ∧ iterN ns g - g ≤ 1 then some (iterN ns g)
            else sqrt_goN ns 0 (iterN ns g)).isSome = true
      rw [if_pos (by omega)]
      rfl
    | succ k ih =>
      intro g hg hsg hk
      by_cases hstop : g - iterN ns g ≤ 1 ∧ iterN ns g - g ≤ 1
      · refine ⟨1, ?_⟩
        show (if g - iterN ns g ≤ 1 ∧ iterN ns g - g ≤ 1 then some (iterN ns g)
              else sqrt_goN ns 0 (iterN ns g)).isSome = true
        rw [if_pos hstop]
        rfl
      · have hA := newton_iter_ge_sqrt ns g hg
        have hne : g ≠ ns.sqrt := by
          intro he
          have hC : iterN ns g ≤ g + 1 := by
            rw [he]
            exact newton_iter_at_sqrt ns hns
          exact hstop (by omega)
        have hB : iterN ns g ≤ g - 1 := newton_iter_lt ns g (by omega)
        obtain ⟨f, hf⟩ := ih (iterN ns g) (by omega) hA (by omega)
        refine ⟨f + 1, ?_⟩
        show (if g - iterN ns g ≤ 1 ∧ iterN ns g - g ≤ 1 then some (iterN ns g)
              else sqrt_goN ns f (iterN ns g)).isSome = true
        rw [if_neg hstop]
        exact hf
  intro g hg
  by_cases hstop : g - iterN ns g ≤ 1 ∧ iterN ns g - g ≤ 1
  · refine ⟨1, ?_⟩
    show (if g - iterN ns g ≤ 1 ∧ iterN ns g - g ≤ 1 then some (iterN ns g)
          else sqrt_goN ns 0 (iterN ns g)).isSome = true
    rw [if_pos hstop]
    rfl
  · have hA := newton_iter_ge_sqrt ns g hg
    obtain ⟨f, hf⟩ := key (iterN ns g - ns.sqrt) (iterN ns g) (by omega) hA (by omega)
    refine ⟨f + 1, ?_⟩
    show (if g - iterN ns g ≤ 1 ∧ iterN ns g - g ≤ 1 then some (iterN ns g)
          else sqrt_goN ns f (iterN ns g)).isSome = true
    rw [if_neg hstop]
    exact hf

/-- The Int Newton loop of `unchecked_sqrt` terminates for every
positive radicand and positive seed. -/
theorem sqrt_go_terminates (M g0 : Int) (hM : 1 ≤ M) (hg : 1 ≤ g0) :
    ∃ fuel, (sqrt_go M fuel g0).isSome = true := by
  have hS : (1 : Int) ≤ FRAC_SCALE := by norm_num [FRAC_SCALE, FRAC_SCALE_N, FRAC_PLACES]
  have hMS : 1 ≤ M * FRAC_SCALE := by nlinarith
  have hns : 1 ≤ (M * FRAC_SCALE).toNat := by omega
  obtain ⟨fuel, hf⟩ := sqrt_goN_terminates (M * FRAC_SCALE).toNat hns g0.toNat (by omega)
  refine ⟨fuel, ?_⟩
  rw [sqrt_go_eq_goN M hM fuel g0 hg]
  rcases ho : sqrt_goN (M * FRAC_SCALE).toNat fuel g0.toNat with _ | v
  · rw [ho] at hf
    simp at hf
  · rfl

theorem frac_scale_lit : FRAC_SCALE = 10000000000000000000 := by
  norm_num [FRAC_SCALE, FRAC_SCALE_N, FRAC_PLACES]

/-- The halving loop of `unchecked_ln` terminates for positive `v`. -/
theorem ln_halve_terminates (v exp : Int) (hv : 1 ≤ v) :
    ∃ fuel, (ln_halve fuel v exp).isSome = true := by
  have main : ∀ n : Nat, ∀ v exp : Int, v.toNat ≤ n → 1 ≤ v →
      ∃ fuel, (ln_halve fuel v exp).isSome = true := by
    intro n
    induction n with
    | zero => intro v exp hvn hv; omega
    | succ n ih =>
      intro v exp hvn hv
      have hup : SQRT2_UP = 14142135623730950488 := rfl
      by_cases hc : SQRT2_UP < v
      · have he : v.tdiv 2 = v / 2 := Int.tdiv_eq_ediv (by omega) (by norm_num)
        have hv2 : 1 ≤ v.tdiv 2 := by rw [he]; omega
        have hlt : (v.tdiv 2).toNat ≤ n := by rw [he]; omega
        obtain ⟨f, hf⟩ := ih (v.tdiv 2) (exp + 1) hlt hv2
        refine ⟨f + 1, ?_⟩
        show (if SQRT2_UP < v then ln_halve f (v.tdiv 2) (exp + 1)
              else some (v, exp)).isSome = true
        rw [if_pos hc]
        exact hf
      · refine ⟨0, ?_⟩
        show (if SQRT2_UP < v then none else some (v, exp)).isSome = true
        rw [if_neg hc]
        rfl
  exact main v.toNat v exp le_rfl hv

/-- The doubling loop of `unchecked_ln` terminates for positive `v`. -/
theorem ln_double_terminates (v exp : Int) (hv : 1 ≤ v) :
    ∃ fuel, (ln_double fuel v exp).isSome = true := by
  have main : ∀ n : Nat, ∀ v exp : Int, (SQRT2_DN - v).toNat ≤ n → 1 ≤ v →
      ∃ fuel, (ln_double fuel v exp).isSome = true := by
    intro n
    induction n with
    | zero =>
      intro v exp hvn hv
      have hdn : SQRT2_DN = 7071067811865475244 := rfl
      refine ⟨0, ?_⟩
      show (if v < SQRT2_DN then none else some (v, exp)).isSome = true
      rw [if_neg (by omega)]
      rfl
    | succ n ih =>
      intro v exp hvn hv
      have hdn : SQRT2_DN = 7071067811865475244 := rfl
      by_cases hc : v < SQRT2_DN
      · obtain ⟨f, hf⟩ := ih (v * 2) (exp - 1) (by omega) (by omega)
        refine ⟨f + 1, ?_⟩
        show (if v < SQRT2_DN then ln_double f (v * 2) (exp - 1)
              else some (v, exp)).isSome = true
        rw [if_pos hc]
        exact hf
      · refine ⟨0, ?_⟩
        show (if v < SQRT2_DN then none else some (v, exp)).isSome = true
        rw [if_neg hc]
        rfl
  exact main (SQRT2_DN - v).toNat v exp le_rfl hv

/-- One double multiply-divide step of the atanh series shrinks the
absolute value (`|u| < scale` makes each `* u / scale` a contraction). -/
theorem series_step_shrinks (u u_pow : Int) (hu : u.natAbs < FRAC_SCALE_N)
    (hnz : u_pow ≠ 0) :
    (((u_pow * u).tdiv FRAC_SCALE * u).tdiv FRAC_SCALE).natAbs ≤ u_pow.natAbs - 1 := by
  have hpos := frac_scale_n_pos
  have habs : FRAC_SCALE.natAbs = FRAC_SCALE_N := Int.natAbs_ofNat _
  have hn1 : 1 ≤ u_pow.natAbs := by
    rcases Int.natAbs_eq_zero.mp.mt hnz with h
    omega
  have step1 : ((u_pow * u).tdiv FRAC_SCALE).natAbs ≤ u_pow.natAbs - 1 := by
    rw [Int.natAbs_tdiv, Int.natAbs_mul, habs]
    show u_pow.natAbs * u.natAbs / FRAC_SCALE_N ≤ u_pow.natAbs - 1
    have hlt : u_pow.natAbs * u.natAbs / FRAC_SCALE_N < u_pow.natAbs := by
      rw [Nat.div_lt_iff_lt_mul hpos]
      exact mul_lt_mul_of_pos_left hu (by omega : 0 < u_pow.natAbs)
    omega
  rw [Int.natAbs_tdiv, Int.natAbs_mul, habs]
  show ((u_pow * u).tdiv FRAC_SCALE).natAbs * u.natAbs / FRAC_SCALE_N ≤ u_pow.natAbs - 1
  have h2 : ((u_pow * u).tdiv FRAC_SCALE).natAbs * u.natAbs / FRAC_SCALE_N
      ≤ ((u_pow * u).tdiv FRAC_SCALE).natAbs := by
    rw [Nat.div_le_iff_le_mul_add_pred hpos]
    calc ((u_pow * u).tdiv FRAC_SCALE).natAbs * u.natAbs
        ≤ ((u_pow * u).tdiv FRAC_SCALE).natAbs * FRAC_SCALE_N := Nat.mul_le_mul_left _ (by omega)
      _ ≤ FRAC_SCALE_N * ((u_pow * u).tdiv FRAC_SCALE).natAbs + (FRAC_SCALE_N - 1) := by
          rw [Nat.mul_comm]
          omega
  omega

/-- The atanh-series loop of `unchecked_ln` terminates whenever
`|u| < scale`. -/
theorem ln_series_terminates (u : Int) (hu : u.natAbs < FRAC_SCALE_N) :
    ∀ u_pow sum k : Int, ∃ fuel, (ln_series fuel u u_pow sum k).isSome = true := by
  have main : ∀ n : Nat, ∀ u_pow sum k : Int, u_pow.natAbs ≤ n →
      ∃ fuel, (ln_series fuel u u_pow sum k).isSome = true := by
    intro n
    induction n with
    | zero =>
      intro u_pow sum k hn
      have hz : u_pow = 0 := by omega
      refine ⟨1, ?_⟩
      show (let u_pow2 := ((u_pow * u).tdiv FRAC_SCALE * u).tdiv FRAC_SCALE;
            let k2 := k + 2;
            let term := u_pow2.tdiv k2;
            if term = 0 then some sum else ln_series 0 u u_pow2 (sum + term) k2).isSome = true
      rw [hz]
      simp only [Int.zero_mul, Int.zero_tdiv]
      rfl
    | succ n ih =>
      intro u_pow sum k hn
      by_cases hterm : (((u_pow * u).tdiv FRAC_SCALE * u).tdiv FRAC_SCALE).tdiv (k + 2) = 0
      · refine ⟨1, ?_⟩
        show (if (((u_pow * u).tdiv FRAC_SCALE * u).tdiv FRAC_SCALE).tdiv (k + 2) = 0
              then some sum
              else ln_series 0 u (((u_pow * u).tdiv FRAC_SCALE * u).tdiv FRAC_SCALE)
                (sum + (((u_pow * u).tdiv FRAC_SCALE * u).tdiv FRAC_SCALE).tdiv (k + 2))
                (k + 2)).isSome = true
        rw [if_pos hterm]
        rfl
      · have hnz : u_pow ≠ 0 := by
          intro hz
          apply hterm
          rw [hz]
          simp only [Int.zero_mul, Int.zero_tdiv]
        have hshrink := series_step_shrinks u u_pow hu hnz
        obtain ⟨f, hf⟩ := ih (((u_pow * u).tdiv FRAC_SCALE * u).tdiv FRAC_SCALE)
          (sum + (((u_pow * u).tdiv FRAC_SCALE * u).tdiv FRAC_SCALE).tdiv (k + 2))
          (k + 2) (by omega)
        refine ⟨f + 1, ?_⟩
        show (if (((u_pow * u).tdiv FRAC_SCALE * u).tdiv FRAC_SCALE).tdiv (k + 2) = 0
              then some sum
              else ln_series f u (((u_pow * u).tdiv FRAC_SCALE * u).tdiv FRAC_SCALE)
                (sum + (((u_pow * u).tdiv FRAC_SCALE * u).tdiv FRAC_SCALE).tdiv (k + 2))
                (k + 2)).isSome = true
        rw [if_neg hterm]
        exact hf
  intro u_pow sum k
  exact main u_pow.natAbs u_pow sum k le_rfl

/-- Extra fuel does not change a halving-loop run that finished. -/
theorem ln_halve_mono :
    ∀ f1 f2 (v exp : Int) r, f1 ≤ f2 → ln_halve f1 v exp = some r →
      ln_halve f2 v exp = some r := by
  intro f1
  induction f1 with
  | zero =>
    intro f2 v exp r hle h
    by_cases hc : SQRT2_UP < v
    · exact absurd h (by show ¬(if SQRT2_UP < v then none else some (v, exp)) = some r; rw [if_pos hc]; simp)
    · have hr : r = (v, exp) := by
        have h2 : (if SQRT2_UP < v then (none : Option (Int × Int)) else some (v, exp)) = some r := h
        rw [if_neg hc] at h2
        exact (Option.some_inj.mp h2).symm
      cases f2 with
      | zero => exact h
      | succ f =>
        show (if SQRT2_UP < v then ln_halve f (v.tdiv 2) (exp + 1) else some (v, exp)) = some r
        rw [if_neg hc, hr]
  | succ f ih =>
    intro f2 v exp r hle h
    obtain ⟨f2p, rfl⟩ : ∃ k, f2 = k + 1 := ⟨f2 - 1, by omega⟩
    by_cases hc : SQRT2_UP < v
    · have h2 : ln_halve f (v.tdiv 2) (exp + 1) = some r := by
        have h3 : (if SQRT2_UP < v then ln_halve f (v.tdiv 2) (exp + 1)
          else some (v, exp)) = some r := h
        rw [if_pos hc] at h3
        exact h3
      show (if SQRT2_UP < v then ln_halve f2p (v.tdiv 2) (exp + 1) else some (v, exp)) = some r
      rw [if_pos hc]
      exact ih f2p _ _ _ (by omega) h2
    · have h2 : (if SQRT2_UP < v then ln_halve f (v.tdiv 2) (exp + 1)
        else some (v, exp)) = some r := h
      rw [if_neg hc] at h2
      show (if SQRT2_UP < v then ln_halve f2p (v.tdiv 2) (exp + 1) else some (v, exp)) = some r
      rw [if_neg hc]
      exact h2

/-- Extra fuel does not change a doubling-loop run that finished. -/
theorem ln_double_mono :
    ∀ f1 f2 (v exp : Int) r, f1 ≤ f2 → ln_double f1 v exp = some r →
      ln_double f2 v exp = some r := by
  intro f1
  induction f1 with
  | zero =>
    intro f2 v exp r hle h
    by_cases hc : v < SQRT2_DN
    · exact absurd h (by show ¬(if v < SQRT2_DN then none else some (v, exp)) = some r; rw [if_pos hc]; simp)
    · have hr : r = (v, exp) := by
        have h2 : (if v < SQRT2_DN then (none : Option (Int × Int)) else some (v, exp)) = some r := h
        rw [if_neg hc] at h2
        exact (Option.some_inj.mp h2).symm
      cases f2 with
      | zero => exact h
      | succ f =>
        show (if v < SQRT2_DN then ln_double f (v * 2) (exp - 1) else some (v, exp)) = some r
        rw [if_neg hc, hr]
  | succ f ih =>
    intro f2 v exp r hle h
    obtain ⟨f2p, rfl⟩ : ∃ k, f2 = k + 1 := ⟨f2 - 1, by omega⟩
    by_cases hc : v < SQRT2_DN
    · have h2 : ln_double f (v * 2) (exp - 1) = some r := by
        have h3 : (if v < SQRT2_DN then ln_double f (v * 2) (exp - 1)
          else some (v, exp)) = some r := h
        rw [if_pos hc] at h3
        exact h3
      show (if v < SQRT2_DN then ln_double f2p (v * 2) (exp - 1) else some (v, exp)) = some r
      rw [if_pos hc]
      exact ih f2p _ _ _ (by omega) h2
    · have h2 : (if v < SQRT2_DN then ln_double f (v * 2) (exp - 1)
        else some (v, exp)) = some r := h
      rw [if_neg hc] at h2
      show (if v < SQRT2_DN then ln_double f2p (v * 2) (exp - 1) else some (v, exp)) = some r
      rw [if_neg hc]
      exact h2

/-- Extra fuel does not change a series-loop run that finished. -/
theorem ln_series_mono :
    ∀ f1 f2 (u u_pow sum k : Int) r, f1 ≤ f2 → ln_series f1 u u_pow sum k = some r →
      ln_series f2 u u_pow sum k = some r := by
  intro f1
  induction f1 with
  | zero =>
    intro f2 u u_pow sum k r hle h
    exact absurd h (by show ¬(none : Option Int) = some r; simp)
  | succ f ih =>
    intro f2 u u_pow sum k r hle h
    obtain ⟨f2p, rfl⟩ : ∃ k2, f2 = k2 + 1 := ⟨f2 - 1, by omega⟩
    by_cases hc : (((u_pow * u).tdiv FRAC_SCALE * u).tdiv FRAC_SCALE).tdiv (k + 2) = 0
    · have h2 : (if (((u_pow * u).tdiv FRAC_SCALE * u).tdiv FRAC_SCALE).tdiv (k + 2) = 0
        then some sum
        else ln_series f u (((u_pow * u).tdiv FRAC_SCALE * u).tdiv FRAC_SCALE)
          (sum + (((u_pow * u).tdiv FRAC_SCALE * u).tdiv FRAC_SCALE).tdiv (k + 2)) (k + 2)) = some r := h
      rw [if_pos hc] at h2
      show (if (((u_pow * u).tdiv FRAC_SCALE * u).tdiv FRAC_SCALE).tdiv (k + 2) = 0
        then some sum
        else ln_series f2p u (((u_pow * u).tdiv FRAC_SCALE * u).tdiv FRAC_SCALE)
          (sum + (((u_pow * u).tdiv FRAC_SCALE * u).tdiv FRAC_SCALE).tdiv (k + 2)) (k + 2)) = some r
      rw [if_pos hc]
      exact h2
    · have h2 : (if (((u_pow * u).tdiv FRAC_SCALE * u).tdiv FRAC_SCALE).tdiv (k + 2) = 0
        then some sum
        else ln_series f u (((u_pow * u).tdiv FRAC_SCALE * u).tdiv FRAC_SCALE)
          (sum + (((u_pow * u).tdiv FRAC_SCALE * u).tdiv FRAC_SCALE).tdiv (k + 2)) (k + 2)) = some r := h
      rw [if_neg hc] at h2
      show (if (((u_pow * u).tdiv FRAC_SCALE * u).tdiv FRAC_SCALE).tdiv (k + 2) = 0
        then some sum
        else ln_series f2p u (((u_pow * u).tdiv FRAC_SCALE * u).tdiv FRAC_SCALE)
          (sum + (((u_pow * u).tdiv FRAC_SCALE * u).tdiv FRAC_SCALE).tdiv (k + 2)) (k + 2)) = some r
      rw [if_neg hc]
      exact ih f2p _ _ _ _ _ (by omega) h2

/-- The halving loop preserves positivity of `v`. -/
theorem ln_halve_pos :
    ∀ f (v exp v2 e2 : Int), 1 ≤ v → ln_halve f v exp = some (v2, e2) → 1 ≤ v2 := by
  intro f
  induction f with
  | zero =>
    intro v exp v2 e2 hv h
    by_cases hc : SQRT2_UP < v
    · exact absurd h (by show ¬(if SQRT2_UP < v then none else some (v, exp)) = some (v2, e2); rw [if_pos hc]; simp)
    · have h2 : (if SQRT2_UP < v then (none : Option (Int × Int)) else some (v, exp)) = some (v2, e2) := h
      rw [if_neg hc] at h2
      have : v = v2 := congrArg Prod.fst (Option.some_inj.mp h2)
      omega
  | succ f ih =>
    intro v exp v2 e2 hv h
    have hup : SQRT2_UP = 14142135623730950488 := rfl
    by_cases hc : SQRT2_UP < v
    · have h2 : ln_halve f (v.tdiv 2) (exp + 1) = some (v2, e2) := by
        have h3 : (if SQRT2_UP < v then ln_halve f (v.tdiv 2) (exp + 1)
          else some (v, exp)) = some (v2, e2) := h
        rw [if_pos hc] at h3
        exact h3
      have he : v.tdiv 2 = v / 2 := Int.tdiv_eq_ediv (by omega) (by norm_num)
      exact ih (v.tdiv 2) (exp + 1) v2 e2 (by rw [he]; omega) h2
    · have h2 : (if SQRT2_UP < v then ln_halve f (v.tdiv 2) (exp + 1)
        else some (v, exp)) = some (v2, e2) := h
      rw [if_neg hc] at h2
      have : v = v2 := congrArg Prod.fst (Option.some_inj.mp h2)
      omega

/-- The doubling loop preserves positivity of `v`. -/
theorem ln_double_pos :
    ∀ f (v exp v2 e2 : Int), 1 ≤ v → ln_double f v exp = some (v2, e2) → 1 ≤ v2 := by
  intro f
  induction f with
  | zero =>
    intro v exp v2 e2 hv h
    by_cases hc : v < SQRT2_DN
    · exact absurd h (by show ¬(if v < SQRT2_DN then none else some (v, exp)) = some (v2, e2); rw [if_pos hc]; simp)
    · have h2 : (if v < SQRT2_DN then (none : Option (Int × Int)) else some (v, exp)) = some (v2, e2) := h
      rw [if_neg hc] at h2
      have : v = v2 := congrArg Prod.fst (Option.some_inj.mp h2)
      omega
  | succ f ih =>
    intro v exp v2 e2 hv h
    by_cases hc : v < SQRT2_DN
    · have h2 : ln_double f (v * 2) (exp - 1) = some (v2, e2) := by
        have h3 : (if v < SQRT2_DN then ln_double f (v * 2) (exp - 1)
          else some (v, exp)) = some (v2, e2) := h
        rw [if_pos hc] at h3
        exact h3
      exact ih (v * 2) (exp - 1) v2 e2 (by omega) h2
    · have h2 : (if v < SQRT2_DN then ln_double f (v * 2) (exp - 1)
        else some (v, exp)) = some (v2, e2) := h
      rw [if_neg hc] at h2
      have : v = v2 := congrArg Prod.fst (Option.some_inj.mp h2)
      omega

/-- The scaled atanh argument has magnitude strictly below the scale. -/
theorem u_abs_lt (v : Int) (hv : 1 ≤ v) :
    (((v - FRAC_SCALE) * FRAC_SCALE).tdiv (v + FRAC_SCALE)).natAbs < FRAC_SCALE_N := by
  have hSl := frac_scale_lit
  have hpos := frac_scale_n_pos
  rw [Int.natAbs_tdiv, Int.natAbs_mul]
  have habs : FRAC_SCALE.natAbs = FRAC_SCALE_N := Int.natAbs_ofNat _
  rw [habs]
  have hden : 0 < (v + FRAC_SCALE).natAbs := by omega
  show (v - FRAC_SCALE).natAbs * FRAC_SCALE_N / (v + FRAC_SCALE).natAbs < FRAC_SCALE_N
  rw [Nat.div_lt_iff_lt_mul hden]
  have hlt : (v - FRAC_SCALE).natAbs < (v + FRAC_SCALE).natAbs := by omega
  calc (v - FRAC_SCALE).natAbs * FRAC_SCALE_N
      < (v + FRAC_SCALE).natAbs * FRAC_SCALE_N := (Nat.mul_lt_mul_right hpos).mpr hlt
    _ = FRAC_SCALE_N * (v + FRAC_SCALE).natAbs := Nat.mul_comm _ _

/-- `unchecked_ln` terminates for every positive input. -/
theorem unchecked_ln_terminates (x : Dec19x19) (hx : 1 ≤ x.repr) :
    ∃ fuel, (unchecked_ln_fuel x fuel).isSome = true := by
  obtain ⟨f1, hf1⟩ := ln_halve_terminates x.repr 0 hx
  obtain ⟨⟨v1, e1⟩, hr1⟩ := Option.isSome_iff_exists.mp hf1
  have hv1 : 1 ≤ v1 := ln_halve_pos f1 x.repr 0 v1 e1 hx hr1
  obtain ⟨f2, hf2⟩ := ln_double_terminates v1 e1 hv1
  obtain ⟨⟨v2, e2⟩, hr2⟩ := Option.isSome_iff_exists.mp hf2
  have hv2 : 1 ≤ v2 := ln_double_pos f2 v1 e1 v2 e2 hv1 hr2
  have hu := u_abs_lt v2 hv2
  obtain ⟨f3, hf3⟩ := ln_series_terminates _ hu
    (((v2 - FRAC_SCALE) * FRAC_SCALE).tdiv (v2 + FRAC_SCALE))
    (((v2 - FRAC_SCALE) * FRAC_SCALE).tdiv (v2 + FRAC_SCALE)) 1
  obtain ⟨s, hr3⟩ := Option.isSome_iff_exists.mp hf3
  refine ⟨f1 + f2 + f3, ?_⟩
  have h1F := ln_halve_mono f1 (f1 + f2 + f3) x.repr 0 (v1, e1) (by omega) hr1
  have h2F := ln_double_mono f2 (f1 + f2 + f3) v1 e1 (v2, e2) (by omega) hr2
  have h3F := ln_series_mono f3 (f1 + f2 + f3) _ _ _ _ s (by omega) hr3
  unfold unchecked_ln_fuel
  rw [h1F]
  simp only [Option.bind_eq_bind, Option.some_bind]
  rw [h2F]
  simp only [Option.some_bind]
  rw [h3F]
  simp only [Option.some_bind]
  rfl

/-- C9: the Newton-Raphson loop of `unchecked_sqrt` (for every positive
radicand and every positive seed) and the range-reduction and
atanh-series loops of `unchecked_ln` (for every positive input)
terminate: enough fuel makes each loop return a value. The `f64`-seeded
initial guess of `unchecked_sqrt` is modelled as an arbitrary positive
seed. -/
theorem loops_terminate :
    (∀ M g0 : Int, 1 ≤ M → 1 ≤ g0 → ∃ fuel, (sqrt_go M fuel g0).isSome = true)
    ∧ (∀ x : Dec19x19, 1 ≤ x.repr → ∃ fuel, (unchecked_ln_fuel x fuel).isSome = true) :=
  ⟨fun M g0 hM hg => sqrt_go_terminates M g0 hM hg,
   fun x hx => unchecked_ln_terminates x hx⟩

/-- Witness for C9: the sqrt loop at `x = 10^-18` from seed
`3162277660`, and `ln` at `x = 1`. -/
theorem loops_terminate_witness :
    (∃ fuel, (sqrt_go 10 fuel 3162277660).isSome = true)
    ∧ (∃ fuel, (unchecked_ln_fuel ⟨FRAC_SCALE⟩ fuel).isSome = true) :=
  ⟨loops_terminate.1 10 3162277660 (by decide) (by decide),
   loops_terminate.2 ⟨FRAC_SCALE⟩ (by decide)⟩

-- ===== C6: sqrt squared-error bound (corrected) =====

theorem checkedMulU128_some_inv {x y v : Nat} (h : checkedMulU128 x y = some v) :
    v = x * y := by
  unfold checkedMulU128 at h
  split_ifs at h
  exact (Option.some_inj.mp h).symm

theorem checkedAddU128_some_inv {x y v : Nat} (h : checkedAddU128 x y = some v) :
    v = x + y := by
  unfold checkedAddU128 at h
  split_ifs at h
  exact (Option.some_inj.mp h).symm

theorem u128ToI128_some_inv {n : Nat} {v : Int} (h : u128ToI128 n = some v) :
    v = (n : Int) ∧ n ≤ 2 ^ 127 - 1 := by
  unfold u128ToI128 I128_MAX at h
  split_ifs at h with hc
  refine ⟨(Option.some_inj.mp h).symm, ?_⟩
  have h3 : ((2 ^ 127 - 1 : Nat) : Int) = 2 ^ 127 - 1 := by norm_num
  omega

/-- Inversion for squares: a successful `checked_mul_opt` of a value by
itself returns the exact truncated square, which fits in `i128`. -/
theorem checked_mul_opt_sq (r : Int) (p : Dec19x19)
    (h : checked_mul_opt ⟨r⟩ ⟨r⟩ = some p) :
    p.repr = ((r.natAbs * r.natAbs / FRAC_SCALE_N : Nat) : Int)
    ∧ r.natAbs * r.natAbs / FRAC_SCALE_N ≤ 2 ^ 127 - 1 := by
  have hneg : (decide (r < 0) ^^ decide (r < 0)) = false := Bool.xor_self _
  have hd := mul_mag_decomp r.natAbs r.natAbs
  simp only [checked_mul_opt, hneg, Bool.false_eq_true, if_false,
    Option.bind_eq_bind, Option.pure_def] at h
  have tail : ∀ y : Nat,
      ((u128ToI128 y).bind fun ri => some (⟨ri⟩ : Dec19x19)) = some p →
      p.repr = (y : Int) ∧ y ≤ 2 ^ 127 - 1 := by
    intro y hy
    rw [Option.bind_eq_some] at hy
    obtain ⟨ri, hcast, h3⟩ := hy
    obtain ⟨hri, hle⟩ := u128ToI128_some_inv hcast
    have hp : p = ⟨ri⟩ := (Option.some_inj.mp h3).symm
    exact ⟨by rw [hp, hri], hle⟩
  by_cases hbf : r.natAbs % FRAC_SCALE_N = 0
  · rw [if_pos hbf] at h
    rw [Option.bind_eq_some] at h
    obtain ⟨mag, hmag, h2⟩ := h
    have hv := checkedMulU128_some_inv hmag
    obtain ⟨hp, hle⟩ := tail mag h2
    rw [hv, mul_exact_int_rhs r.natAbs r.natAbs hbf] at hp hle
    exact ⟨hp, hle⟩
  · rw [if_neg hbf] at h
    by_cases hbi : r.natAbs / FRAC_SCALE_N = 0
    · rw [if_pos hbi] at h
      rw [Option.bind_eq_some] at h
      obtain ⟨cross, hcross, h2⟩ := h
      rw [Option.bind_eq_some] at h2
      obtain ⟨fm, hfm, h3⟩ := h2
      rw [Option.bind_eq_some] at h3
      obtain ⟨mag, hmag, h4⟩ := h3
      have hv1 := checkedMulU128_some_inv hcross
      have hv2 := checkedMulU128_some_inv hfm
      have hv3 := checkedAddU128_some_inv hmag
      obtain ⟨hp, hle⟩ := tail mag h4
      rw [hbi] at hd
      simp only [Nat.zero_mul, Nat.mul_zero, Nat.zero_add, Nat.add_zero] at hd
      have hmagval : mag = r.natAbs * r.natAbs / FRAC_SCALE_N := by
        rw [hv3, hv1, hv2, hbi, hd]
        simp only [Nat.zero_mul, Nat.zero_add]
      rw [hmagval] at hp hle
      exact ⟨hp, hle⟩
    · rw [if_neg hbi] at h
      simp only [if_neg hbf] at h
      rw [Option.bind_eq_some] at h
      obtain ⟨ib, hib, h2⟩ := h
      rw [Option.bind_eq_some] at h2
      obtain ⟨int_, hint, h3⟩ := h2
      rw [Option.bind_eq_some] at h3
      obtain ⟨t1, ht1, h4⟩ := h3
      rw [Option.bind_eq_some] at h4
      obtain ⟨t2, ht2, h5⟩ := h4
      rw [Option.bind_eq_some] at h5
      obtain ⟨cross, hcross, h6⟩ := h5
      rw [Option.bind_eq_some] at h6
      obtain ⟨fm, hfm, h7⟩ := h6
      rw [Option.bind_eq_some] at h7
      obtain ⟨sum1, hsum1, h8⟩ := h7
      rw [Option.bind_eq_some] at h8
      obtain ⟨mag, hmag, h9⟩ := h8
      obtain ⟨hp, hle⟩ := tail mag h9
      have hmagval : mag = r.natAbs * r.natAbs / FRAC_SCALE_N := by
        rw [checkedAddU128_some_inv hmag, checkedAddU128_some_inv hsum1,
          checkedMulU128_some_inv hint, checkedMulU128_some_inv hib,
          checkedAddU128_some_inv hcross, checkedMulU128_some_inv ht1,
          checkedMulU128_some_inv ht2, checkedMulU128_some_inv hfm, hd]
      rw [hmagval] at hp hle
      exact ⟨hp, hle⟩

/-- C6 counterexample: no representable value squares (by the public
checked multiplication) to within one ULP of `MAX`, so whatever
`unchecked_sqrt(MAX)` returns, `sqrt(MAX) * sqrt(MAX)` cannot be within
`SMALLEST_STEP` of `MAX`; the claimed bound fails at `x = MAX`. -/
theorem sqrt_square_ulp_counterexample :
    ¬ ∃ (r : Int) (p : Dec19x19), InI128 r ∧ checked_mul_opt ⟨r⟩ ⟨r⟩ = some p
      ∧ (p.repr - DMAX.repr).natAbs ≤ 1 := by
  rintro ⟨r, p, hr, hm, hnear⟩
  obtain ⟨hp, hle⟩ := checked_mul_opt_sq r p hm
  have hD : DMAX.repr = 170141183460469231731687303715884105727 := by
    norm_num [DMAX, I128_MAX]
  have hg0lo : (41248173712355948587903221175 : Nat) * 41248173712355948587903221175 / FRAC_SCALE_N
      = 170141183460469231731687303713874380037 := by
    rw [frac_scale_n_lit]
  have hg0hi : (41248173712355948587903221176 : Nat) * 41248173712355948587903221176 / FRAC_SCALE_N
      = 170141183460469231731687303722124014779 := by
    rw [frac_scale_n_lit]
  by_cases hcase : r.natAbs ≤ 41248173712355948587903221175
  · have hmono : r.natAbs * r.natAbs / FRAC_SCALE_N
        ≤ 170141183460469231731687303713874380037 := by
      calc r.natAbs * r.natAbs / FRAC_SCALE_N
          ≤ 41248173712355948587903221175 * 41248173712355948587903221175 / FRAC_SCALE_N :=
            Nat.div_le_div_right (Nat.mul_le_mul hcase hcase)
        _ = 170141183460469231731687303713874380037 := hg0lo
    rw [hp, hD] at hnear
    omega
  · push_neg at hcase
    have hmono : (170141183460469231731687303722124014779 : Nat)
        ≤ r.natAbs * r.natAbs / FRAC_SCALE_N := by
      calc (170141183460469231731687303722124014779 : Nat)
          = 41248173712355948587903221176 * 41248173712355948587903221176 / FRAC_SCALE_N :=
            hg0hi.symm
        _ ≤ r.natAbs * r.natAbs / FRAC_SCALE_N :=
            Nat.div_le_div_right (Nat.mul_le_mul (by omega) (by omega))
    have hM : (2 : Nat) ^ 127 - 1 = 170141183460469231731687303715884105727 := by norm_num
    omega

/-- C6 amended: at the documented precision case `x = 10^-18`
(`repr = 10`), every value at which the Newton loop can stop — any `g`
reached from a positive previous guess `l` by one Newton step with
`|l - g| <= 1` — squares back to within one ULP of `x` (in fact
exactly, `g * g = x`): the one-ULP squared-error bound holds at small
inputs, though not at `MAX`. -/
theorem sqrt_square_ulp_small_case (l g : Int) (hl : 0 < l)
    (hg : g = sqrt_iter 10 l) (hstop : (l - g).natAbs ≤ 1) :
    ∃ p, checked_mul ⟨g⟩ ⟨g⟩ = some p ∧ (p.repr - (10 : Int)).natAbs ≤ 1 := by
  have hSl := frac_scale_lit
  have hns : (10 * FRAC_SCALE).toNat = 100000000000000000000 := by
    rw [hSl]
    rfl
  have hsq : (100000000000000000000 : Nat).sqrt = 10000000000 := by
    have h1 : (10000000000 : Nat) ≤ (100000000000000000000 : Nat).sqrt :=
      Nat.le_sqrt.mpr (by norm_num)
    have h2 : (100000000000000000000 : Nat).sqrt < 10000000001 :=
      Nat.sqrt_lt.mpr (by norm_num)
    omega
  have hiter := sqrt_iter_eq 10 l (by rw [hSl]; norm_num) (by omega)
  rw [hns] at hiter
  have hltn : 1 ≤ l.toNat := by omega
  have hge : (10000000000 : Int) ≤ g := by
    rw [hg, hiter]
    have := newton_iter_ge_sqrt 100000000000000000000 l.toNat hltn
    rw [hsq] at this
    exact_mod_cast this
  have hle : g ≤ 10000000001 := by
    by_cases hc : l ≤ 10000000000
    · omega
    · have hql : (100000000000000000000 : Nat) / l.toNat ≤ 9999999999 := by
        have h1 : (100000000000000000000 : Nat) / l.toNat
            ≤ 100000000000000000000 / 10000000001 :=
          Nat.div_le_div_left (by omega) (by norm_num)
        have h2 : (100000000000000000000 : Nat) / 10000000001 = 9999999999 := by
          norm_num
        omega
      have hgn : g = ((iterN 100000000000000000000 l.toNat : Nat) : Int) := by
        rw [hg, hiter]
      have hiterbound : iterN 100000000000000000000 l.toNat
          ≤ (l.toNat + 9999999999) / 2 := by
        unfold iterN
        omega
      have hln : l.toNat ≤ g.toNat + 1 := by omega
      rw [hgn]
      rw [hgn] at hln
      rw [Int.toNat_natCast] at hln
      have : iterN 100000000000000000000 l.toNat ≤ 10000000000 := by omega
      exact_mod_cast Nat.le_succ_of_le this
  have hcases : g = 10000000000 ∨ g = 10000000001 := by omega
  rcases hcases with h | h <;> subst h
  · exact ⟨⟨10⟩, by decide, by decide⟩
  · exact ⟨⟨10⟩, by decide, by decide⟩

/-- Witness for the amended C6 at `l = 10^10` (where the step is a
fixed point and the loop stops immediately). -/
theorem sqrt_square_ulp_small_case_witness :
    (0 : Int) < 10 ^ 10
    ∧ ((10 ^ 10 : Int) - sqrt_iter 10 (10 ^ 10)).natAbs ≤ 1
    ∧ ∃ p, checked_mul ⟨sqrt_iter 10 (10 ^ 10)⟩ ⟨sqrt_iter 10 (10 ^ 10)⟩ = some p
        ∧ (p.repr - (10 : Int)).natAbs ≤ 1 :=
  ⟨by decide, by decide,
   sqrt_square_ulp_small_case (10 ^ 10) (sqrt_iter 10 (10 ^ 10)) (by decide) rfl (by decide)⟩

-- ===== C2: parse-format round trip, digit-string lemmas =====

/-- A character that renders a decimal digit. -/
def IsDigitChar (c : Char) : Prop := ∃ d, d < 10 ∧ c = digitToChar d

theorem digit_char_facts {c : Char} (h : IsDigitChar c) :
    c.isDigit = true ∧ c.isWhitespace = false ∧ c.utf8Size = 1
    ∧ c ≠ '-' ∧ c ≠ '+' ∧ c ≠ '.' ∧ c ≠ 'e' ∧ c ≠ '_' ∧ c ≠ ' ' ∧ c ≠ '0' ∨
    c = '0' ∧ c.isDigit = true ∧ c.isWhitespace = false ∧ c.utf8Size = 1
    ∧ c ≠ '-' ∧ c ≠ '+' ∧ c ≠ '.' ∧ c ≠ 'e' ∧ c ≠ '_' ∧ c ≠ ' ' := by
  obtain ⟨d, hd, rfl⟩ := h
  interval_cases d
  · right
    refine ⟨by decide, by decide, by decide, by decide, by decide, by decide, by decide,
      by decide, by decide, by decide⟩
  all_goals left
  all_goals refine ⟨by decide, by decide, by decide, by decide, by decide, by decide,
    by decide, by decide, by decide, by decide⟩

theorem digit_char_basic {c : Char} (h : IsDigitChar c) :
    c.isDigit = true ∧ c.isWhitespace = false ∧ c.utf8Size = 1
    ∧ c ≠ '-' ∧ c ≠ '+' ∧ c ≠ '.' ∧ c ≠ 'e' ∧ c ≠ '_' ∧ c ≠ ' ' := by
  rcases digit_char_facts h with ⟨h1, h2, h3, h4, h5, h6, h7, h8, h9, _⟩ | ⟨_, h1, h2, h3, h4, h5, h6, h7, h8, h9⟩
  · exact ⟨h1, h2, h3, h4, h5, h6, h7, h8, h9⟩
  · exact ⟨h1, h2, h3, h4, h5, h6, h7, h8, h9⟩

theorem digitToChar_val {d : Nat} (hd : d < 10) :
    charToDigitVal (digitToChar d) = d := by
  interval_cases d <;> decide

theorem zero_is_digit_char : IsDigitChar '0' := ⟨0, by decide, by decide⟩

/-- All characters produced by `natDigitsGo` are digits, the list is
nonempty, and folding it back recovers the number. -/
theorem natDigitsGo_spec :
    ∀ fuel n, n < fuel →
      digitsToNat (natDigitsGo fuel n) = n ∧ natDigitsGo fuel n ≠ []
      ∧ ∀ c ∈ natDigitsGo fuel n, IsDigitChar c := by
  intro fuel
  induction fuel with
  | zero => intro n h; omega
  | succ f ih =>
    intro n h
    by_cases hn : n < 10
    · have hunf : natDigitsGo (f + 1) n = [digitToChar n] := by
        show (if n < 10 then [digitToChar n] else _) = _
        rw [if_pos hn]
      rw [hunf]
      refine ⟨?_, by simp, ?_⟩
      · show 10 * 0 + charToDigitVal (digitToChar n) = n
        rw [digitToChar_val hn]
        omega
      · intro c hc
        have : c = digitToChar n := by simpa using hc
        exact ⟨n, hn, this⟩
    · have hrec : n / 10 < f := by omega
      obtain ⟨ihv, ihne, ihd⟩ := ih (n / 10) hrec
      have hunf : natDigitsGo (f + 1) n = natDigitsGo f (n / 10) ++ [digitToChar (n % 10)] := by
        show (if n < 10 then [digitToChar n] else natDigitsGo f (n / 10) ++ [digitToChar (n % 10)]) = _
        rw [if_neg hn]
      rw [hunf]
      refine ⟨?_, by simp, ?_⟩
      · show List.foldl (fun a c => 10 * a + charToDigitVal c) 0
          (natDigitsGo f (n / 10) ++ [digitToChar (n % 10)]) = n
        rw [List.foldl_append]
        show 10 * digitsToNat (natDigitsGo f (n / 10)) + charToDigitVal (digitToChar (n % 10)) = n
        rw [ihv, digitToChar_val (by omega)]
        omega
      · intro c hc
        rcases List.mem_append.mp hc with h1 | h2
        · exact ihd c h1
        · have : c = digitToChar (n % 10) := by simpa using h2
          exact ⟨n % 10, by omega, this⟩

/-- Digit strings of numbers below `10^k` have at most `k` digits. -/
theorem natDigitsGo_len :
    ∀ fuel n k, n < fuel → n < 10 ^ k → 1 ≤ k → (natDigitsGo fuel n).length ≤ k := by
  intro fuel
  induction fuel with
  | zero => intro n k h; omega
  | succ f ih =>
    intro n k h hk h1
    by_cases hn : n < 10
    · have : natDigitsGo (f + 1) n = [digitToChar n] := by
        show (if n < 10 then [digitToChar n] else _) = _
        rw [if_pos hn]
      rw [this]
      simpa using h1
    · have hunf : natDigitsGo (f + 1) n = natDigitsGo f (n / 10) ++ [digitToChar (n % 10)] := by
        show (if n < 10 then [digitToChar n] else natDigitsGo f (n / 10) ++ [digitToChar (n % 10)]) = _
        rw [if_neg hn]
      have hk2 : 2 ≤ k := by
        by_contra hc
        have : k = 1 := by omega
        rw [this] at hk
        omega
      have hdiv : n / 10 < 10 ^ (k - 1) := by
        have h10 : (10 : Nat) ^ k = 10 ^ (k - 1) * 10 := by
          rw [← pow_succ]
          congr 1
          omega
        rw [h10] at hk
        exact Nat.div_lt_of_lt_mul (by omega)
      have := ih (n / 10) (k - 1) (by omega) hdiv (by omega)
      rw [hunf]
      rw [List.length_append]
      simp only [List.length_singleton]
      omega

/-- Digit strings of nonzero numbers never start with `'0'`. -/
theorem natDigitsGo_head :
    ∀ fuel n, n < fuel → n ≠ 0 → ∀ c, (natDigitsGo fuel n).head? = some c → c ≠ '0' := by
  intro fuel
  induction fuel with
  | zero => intro n h; omega
  | succ f ih =>
    intro n h hnz c hc
    by_cases hn : n < 10
    · have hunf : natDigitsGo (f + 1) n = [digitToChar n] := by
        show (if n < 10 then [digitToChar n] else _) = _
        rw [if_pos hn]
      rw [hunf] at hc
      have hceq : c = digitToChar n := by
        simp only [List.head?_cons, Option.some_inj] at hc
        exact hc.symm
      subst hceq
      have h1 : 1 ≤ n := by omega
      interval_cases n <;> decide
    · have hunf : natDigitsGo (f + 1) n = natDigitsGo f (n / 10) ++ [digitToChar (n % 10)] := by
        show (if n < 10 then [digitToChar n] else natDigitsGo f (n / 10) ++ [digitToChar (n % 10)]) = _
        rw [if_neg hn]
      rw [hunf] at hc
      obtain ⟨_, ihne, _⟩ := natDigitsGo_spec f (n / 10) (by omega)
      rcases hl : natDigitsGo f (n / 10) with _ | ⟨c0, cs⟩
      · exact absurd hl ihne
      · rw [hl] at hc
        have hceq : c = c0 := by
          simp only [List.cons_append, List.head?_cons, Option.some_inj] at hc
          exact hc.symm
        refine ih (n / 10) (by omega) (by omega) c ?_
        rw [hl, hceq]
        rfl

/-- `natDigits` recovers the number, is nonempty, and yields digits. -/
theorem natDigits_spec (n : Nat) :
    digitsToNat (natDigits n) = n ∧ natDigits n ≠ []
    ∧ ∀ c ∈ natDigits n, IsDigitChar c :=
  natDigitsGo_spec (n + 1) n (Nat.lt_succ_self n)

/-- Numbers below `10^k` render with at most `k` digits. -/
theorem natDigits_len (n k : Nat) (h : n < 10 ^ k) (hk : 1 ≤ k) :
    (natDigits n).length ≤ k :=
  natDigitsGo_len (n + 1) n k (Nat.lt_succ_self n) h hk

/-- Nonzero numbers render without a leading `'0'`. -/
theorem natDigits_head_ne_zero (n : Nat) (hn : n ≠ 0) (c : Char)
    (hc : (natDigits n).head? = some c) : c ≠ '0' :=
  natDigitsGo_head (n + 1) n (Nat.lt_succ_self n) hn c hc

theorem digit_val_le {c : Char} (h : IsDigitChar c) : charToDigitVal c ≤ 9 := by
  obtain ⟨d, hd, rfl⟩ := h
  interval_cases d <;> decide

/-- Folding the digit accumulator over `k` zeros multiplies by `10^k`. -/
theorem foldl_digits_zeros (k : Nat) :
    ∀ a, List.foldl (fun a c => 10 * a + charToDigitVal c) a (List.replicate k '0')
      = a * 10 ^ k := by
  induction k with
  | zero => intro a; simp
  | succ m ih =>
    intro a
    rw [List.replicate_succ, List.foldl_cons, ih]
    have h0 : charToDigitVal '0' = 0 := rfl
    rw [h0]
    ring

/-- Leading zeros do not change the parsed value. -/
theorem digitsToNat_leading_zeros (k : Nat) (l : List Char) :
    digitsToNat (List.replicate k '0' ++ l) = digitsToNat l := by
  unfold digitsToNat
  rw [List.foldl_append, foldl_digits_zeros]
  simp

/-- Appended trailing zeros scale the parsed value by `10^k`. -/
theorem digitsToNat_append_zeros (l : List Char) (k : Nat) :
    digitsToNat (l ++ List.replicate k '0') = digitsToNat l * 10 ^ k := by
  unfold digitsToNat
  rw [List.foldl_append]
  exact foldl_digits_zeros k _

theorem digits_foldl_lt :
    ∀ (l : List Char) (a : Nat), (∀ c ∈ l, IsDigitChar c) →
      List.foldl (fun a c => 10 * a + charToDigitVal c) a l < (a + 1) * 10 ^ l.length := by
  intro l
  induction l with
  | nil => intro a _; simpa using Nat.lt_succ_self a
  | cons c cs ih =>
    intro a h
    have hc : charToDigitVal c ≤ 9 := digit_val_le (h c (List.mem_cons_self c cs))
    have hstep := ih (10 * a + charToDigitVal c) (fun x hx => h x (List.mem_cons_of_mem c hx))
    rw [List.foldl_cons]
    calc List.foldl (fun a c => 10 * a + charToDigitVal c) (10 * a + charToDigitVal c) cs
        < (10 * a + charToDigitVal c + 1) * 10 ^ cs.length := hstep
      _ ≤ ((a + 1) * 10) * 10 ^ cs.length := Nat.mul_le_mul_right _ (by omega)
      _ = (a + 1) * 10 ^ (c :: cs).length := by
          rw [List.length_cons, pow_succ]
          ring

/-- A digit string of length `n` parses below `10^n`. -/
theorem digitsToNat_lt (l : List Char) (h : ∀ c ∈ l, IsDigitChar c) :
    digitsToNat l < 10 ^ l.length := by
  have := digits_foldl_lt l 0 h
  simpa [digitsToNat] using this

theorem dropWhile_eq_self_of_all (p : Char → Bool) (l : List Char)
    (h : ∀ c ∈ l, p c = false) : l.dropWhile p = l := by
  cases l with
  | nil => rfl
  | cons c cs =>
    rw [List.dropWhile_cons, h c (List.mem_cons_self c cs)]
    simp

theorem dropWhile_dropWhile (p : Char → Bool) (l : List Char) :
    (l.dropWhile p).dropWhile p = l.dropWhile p := by
  induction l with
  | nil => rfl
  | cons c cs ih =>
    rw [List.dropWhile_cons]
    by_cases h : p c = true
    · rw [if_pos h]
      exact ih
    · rw [if_neg h, List.dropWhile_cons, if_neg h]

/-- Any list is a block of leading matches (all `'0'`) followed by its
`dropWhile`. -/
theorem dropWhile_zeros_split (m : List Char) :
    m = List.replicate (m.takeWhile (fun c => c == '0')).length '0'
        ++ m.dropWhile (fun c => c == '0') := by
  conv_lhs => rw [← List.takeWhile_append_dropWhile (p := fun c => c == '0') (l := m)]
  congr 1
  exact List.eq_replicate_of_mem (fun b hb => by simpa using List.mem_takeWhile_imp hb)

/-- `dropTrailingZeros` removes exactly a suffix of zeros. -/
theorem dropTrailingZeros_exists (l : List Char) :
    ∃ k, l = dropTrailingZeros l ++ List.replicate k '0'
      ∧ (dropTrailingZeros l).length + k = l.length := by
  have heq : l = dropTrailingZeros l
      ++ List.replicate ((l.reverse.takeWhile (fun c => c == '0')).length) '0' := by
    conv_lhs => rw [← List.reverse_reverse l]
    conv_lhs => rw [dropWhile_zeros_split l.reverse]
    rw [List.reverse_append, List.reverse_replicate]
    rfl
  refine ⟨_, heq, ?_⟩
  conv_rhs => rw [heq]
  rw [List.length_append, List.length_replicate]

theorem dropTrailingZeros_idem (l : List Char) :
    dropTrailingZeros (dropTrailingZeros l) = dropTrailingZeros l := by
  unfold dropTrailingZeros
  rw [List.reverse_reverse, dropWhile_dropWhile]

theorem dropTrailingZeros_mem {l : List Char} {c : Char}
    (h : c ∈ dropTrailingZeros l) : c ∈ l := by
  unfold dropTrailingZeros at h
  rw [List.mem_reverse] at h
  have h3 := List.takeWhile_append_dropWhile (p := fun c => c == '0') (l := l.reverse)
  have h2 : c ∈ l.reverse := by
    rw [← h3]
    exact List.mem_append.mpr (Or.inr h)
  rwa [List.mem_reverse] at h2

/-- `|a % b| = |a| % |b|` for Rust (truncated) remainder. -/
theorem tmod_natAbs (a b : Int) : (a.tmod b).natAbs = a.natAbs % b.natAbs := by
  match a, b with
  | Int.ofNat m, Int.ofNat n => rfl
  | Int.ofNat m, Int.negSucc n => rfl
  | Int.negSucc m, Int.ofNat n =>
    show (-(Int.ofNat (m.succ % n))).natAbs = _
    rw [Int.natAbs_neg]
    rfl
  | Int.negSucc m, Int.negSucc n =>
    show (-(Int.ofNat (m.succ % n.succ))).natAbs = _
    rw [Int.natAbs_neg]
    rfl

/-- Splitting on a character that does not occur returns the whole list. -/
theorem splitOnChar_no_occ (sep : Char) :
    ∀ l : List Char, sep ∉ l → splitOnChar sep l = [l] := by
  intro l
  induction l with
  | nil => intro _; rfl
  | cons c cs ih =>
    intro h
    have hcs : sep ∉ cs := fun hm => h (List.mem_cons_of_mem c hm)
    have hc : c ≠ sep := fun he => h (he ▸ List.mem_cons_self c cs)
    simp only [splitOnChar]
    rw [ih hcs]
    simp [hc]

/-- Splitting on a character with exactly one occurrence returns the two
sides. -/
theorem splitOnChar_single (sep : Char) (l2 : List Char) (h2 : sep ∉ l2) :
    ∀ l1 : List Char, sep ∉ l1 → splitOnChar sep (l1 ++ sep :: l2) = [l1, l2] := by
  intro l1
  induction l1 with
  | nil =>
    intro _
    show splitOnChar sep (sep :: l2) = [[], l2]
    simp only [splitOnChar]
    rw [splitOnChar_no_occ sep l2 h2]
    simp
  | cons c cs ih =>
    intro h
    have hcs : sep ∉ cs := fun hm => h (List.mem_cons_of_mem c hm)
    have hc : c ≠ sep := fun he => h (he ▸ List.mem_cons_self c cs)
    show splitOnChar sep (c :: (cs ++ sep :: l2)) = [c :: cs, l2]
    simp only [splitOnChar]
    rw [ih hcs]
    simp [hc]

/-- Characters that survive every cleaning pass of the parser: not a
separator, not whitespace, and not the exponent marker. -/
def SafeChar (c : Char) : Prop :=
  c ≠ '_' ∧ c ≠ ' ' ∧ c.isWhitespace = false ∧ c ≠ 'e'

theorem digit_safe {c : Char} (h : IsDigitChar c) : SafeChar c := by
  obtain ⟨_, h2, _, _, _, _, h7, h8, h9⟩ := digit_char_basic h
  exact ⟨h8, h9, h2, h7⟩

theorem removeSeps_of_safe (l : List Char) (h : ∀ c ∈ l, SafeChar c) :
    removeSeps l = l := by
  unfold removeSeps
  rw [List.filter_eq_self]
  intro c hc
  obtain ⟨h1, h2, _, _⟩ := h c hc
  simp [h1, h2]

theorem trimList_of_safe (l : List Char) (h : ∀ c ∈ l, SafeChar c) :
    trimList l = l := by
  unfold trimList
  have hw : ∀ c ∈ l, c.isWhitespace = false := fun c hc => (h c hc).2.2.1
  rw [dropWhile_eq_self_of_all _ l hw,
    dropWhile_eq_self_of_all _ l.reverse (fun c hc => hw c (List.mem_reverse.mp hc)),
    List.reverse_reverse]

theorem splitOnChar_e_of_safe (l : List Char) (h : ∀ c ∈ l, SafeChar c) :
    splitOnChar 'e' l = [l] :=
  splitOnChar_no_occ 'e' l (fun hm => absurd rfl (h 'e' hm).2.2.2)

/-- On one-byte (ASCII) characters the byte length is the char count. -/
theorem utf8Len_eq_length (l : List Char) (h : ∀ c ∈ l, c.utf8Size = 1) :
    utf8Len l = l.length := by
  induction l with
  | nil => rfl
  | cons c cs ih =>
    unfold utf8Len at *
    simp only [List.map_cons, List.sum_cons, List.length_cons]
    rw [h c (List.mem_cons_self c cs), ih (fun x hx => h x (List.mem_cons_of_mem c hx))]
    omega

/-- Without a configured separator the integer grouping loop is the
identity. -/
theorem intSepGo_none (len : Nat) : ∀ (i : Nat) (l : List Char),
    intSepGo none len i l = l := by
  intro i l
  induction l generalizing i with
  | nil => rfl
  | cons c cs ih =>
    simp only [intSepGo, ih]
    simp

/-- Without a configured separator the fraction grouping loop is the
identity. -/
theorem fracSepGo_none : ∀ (i : Nat) (l : List Char),
    fracSepGo none i l = l := by
  intro i l
  induction l generalizing i with
  | nil => rfl
  | cons c cs ih =>
    simp only [fracSepGo, ih]
    simp

theorem all_digits_isDigit (l : List Char) (h : ∀ c ∈ l, IsDigitChar c) :
    l.all Char.isDigit = true := by
  rw [List.all_eq_true]
  intro c hc
  exact (digit_char_basic (h c hc)).1

/-- `parse_i128` on a nonempty unsigned digit string. -/
theorem parse_i128_digits (c : Char) (rest : List Char)
    (h : ∀ x ∈ c :: rest, IsDigitChar x)
    (hb : (digitsToNat (c :: rest) : Int) ≤ I128_MAX) :
    parse_i128 (c :: rest) = some ((digitsToNat (c :: rest) : Int)) := by
  obtain ⟨_, _, _, h4, h5, _, _, _, _⟩ := digit_char_basic (h c (List.mem_cons_self c rest))
  have hall := all_digits_isDigit (c :: rest) h
  have hIn : InI128 ((digitsToNat (c :: rest) : Nat) : Int) := by
    constructor
    · unfold I128_MIN
      omega
    · exact hb
  simp [parse_i128, h4, h5, hall, hIn]

/-- `parse_i128` on a `'-'`-signed nonempty digit string. -/
theorem parse_i128_neg_digits (l : List Char) (hne : l ≠ [])
    (h : ∀ c ∈ l, IsDigitChar c) (hb : (digitsToNat l : Int) ≤ 2 ^ 127) :
    parse_i128 ('-' :: l) = some (-(digitsToNat l : Int)) := by
  have hall := all_digits_isDigit l h
  have hIn : InI128 (-(digitsToNat l : Int)) := by
    constructor
    · unfold I128_MIN
      omega
    · unfold I128_MAX
      omega
  have hemp : l.isEmpty = false := by
    cases l with
    | nil => exact absurd rfl hne
    | cons a as => rfl
  simp [parse_i128, hall, hIn, hemp]

/-- `format` with the default configuration: optional minus sign, the
integer digits, then a dot and the trailing-zero-stripped fraction
digits (omitted when the fraction renders empty). -/
theorem format_default (x : Dec19x19) :
    format x defaultFormatter =
      (if x.repr < 0 then ['-'] else [])
        ++ natDigits (x.repr.tdiv FRAC_SCALE).natAbs
        ++ (if (dropTrailingZeros (padLeftZeros FRAC_PLACES
              (natDigits (x.repr.tmod FRAC_SCALE).natAbs))).isEmpty
            then []
            else '.' :: dropTrailingZeros (padLeftZeros FRAC_PLACES
              (natDigits (x.repr.tmod FRAC_SCALE).natAbs))) := by
  unfold format defaultFormatter
  simp only [intSepGo_none, fracSepGo_none]
  by_cases hfe : (dropTrailingZeros (padLeftZeros FRAC_PLACES
      (natDigits (x.repr.tmod FRAC_SCALE).natAbs))).isEmpty
  · simp [hfe]
  · simp [hfe]

/-- `shift_decimal` with exponent `0` only normalizes zeros. -/
theorem shift_decimal_zero (ip fp : List Char) :
    shift_decimal ip fp 0 =
      (if (dropLeadingZeros ip).isEmpty then ['0'] else dropLeadingZeros ip,
       if (dropTrailingZeros fp).isEmpty then ['0'] else dropTrailingZeros fp) := by
  unfold shift_decimal
  norm_num

/-- Value bound for a digit string zero-padded to 19 places. -/
theorem padded_val_lt (l : List Char) (hD : ∀ c ∈ l, IsDigitChar c)
    (hlen : l.length ≤ 19) :
    digitsToNat l * 10 ^ (19 - l.length) < 10 ^ 19 := by
  have hlt : digitsToNat l < 10 ^ l.length := digitsToNat_lt _ hD
  calc digitsToNat l * 10 ^ (19 - l.length)
      < 10 ^ l.length * 10 ^ (19 - l.length) :=
        (Nat.mul_lt_mul_right (Nat.pow_pos (by norm_num))).mpr hlt
    _ = 10 ^ (l.length + (19 - l.length)) := (pow_add 10 _ _).symm
    _ = 10 ^ 19 := by
        congr 1
        omega

/-- `parse_i128` on a digit string zero-padded on the right to 19
places. -/
theorem parse_padded (l : List Char) (hne : l ≠ []) (hD : ∀ c ∈ l, IsDigitChar c)
    (hlen : l.length ≤ 19) :
    parse_i128 (l ++ List.replicate (19 - l.length) '0')
      = some (((digitsToNat l * 10 ^ (19 - l.length) : Nat) : Int)) := by
  have hval : digitsToNat (l ++ List.replicate (19 - l.length) '0')
      = digitsToNat l * 10 ^ (19 - l.length) := digitsToNat_append_zeros _ _
  have hD2 : ∀ x ∈ l ++ List.replicate (19 - l.length) '0', IsDigitChar x := by
    intro x hx
    rcases List.mem_append.mp hx with h1 | h2
    · exact hD x h1
    · rw [List.eq_of_mem_replicate h2]
      exact zero_is_digit_char
  have hbound : (digitsToNat (l ++ List.replicate (19 - l.length) '0') : Int) ≤ I128_MAX := by
    have h1 : digitsToNat (l ++ List.replicate (19 - l.length) '0') < 10 ^ 19 := by
      rw [hval]
      exact padded_val_lt l hD hlen
    unfold I128_MAX
    omega
  rcases l with _ | ⟨c, rest⟩
  · exact absurd rfl hne
  rw [List.cons_append] at hval hD2 hbound ⊢
  rw [parse_i128_digits c _ hD2 hbound, hval]

theorem parse_canonical_core (neg : Bool) (intStr fracStr : List Char)
    (hiNe : intStr ≠ [])
    (hiD : ∀ c ∈ intStr, IsDigitChar c)
    (hfD : ∀ c ∈ fracStr, IsDigitChar c)
    (hfLen : fracStr.length ≤ 19)
    (hiLead : dropLeadingZeros intStr = intStr ∨ intStr = ['0'])
    (hfTrail : dropTrailingZeros fracStr = fracStr)
    (hiVal : digitsToNat intStr ≤ 10 ^ 18) :
    parse_dec19x19_internal
      ((if neg then ['-'] else []) ++ intStr
        ++ (if fracStr.isEmpty then [] else '.' :: fracStr)) =
    ParseResult.ok
      ((if neg then -1 else 1)
        * ((digitsToNat intStr : Int) * FRAC_SCALE
            + (digitsToNat fracStr : Int) * 10 ^ (19 - fracStr.length))) := by
  have hfS : ∀ c ∈ (if fracStr.isEmpty then [] else '.' :: fracStr), SafeChar c := by
    intro c hc
    by_cases hfe : fracStr.isEmpty
    · rw [if_pos hfe] at hc
      simp at hc
    · rw [if_neg hfe] at hc
      rcases List.mem_cons.mp hc with h1 | h2
      · subst h1
        exact ⟨by decide, by decide, by decide, by decide⟩
      · exact digit_safe (hfD c h2)
  have hsafe : ∀ c ∈ (if neg then ['-'] else []) ++ intStr
      ++ (if fracStr.isEmpty then [] else '.' :: fracStr), SafeChar c := by
    intro c hc
    rcases List.mem_append.mp hc with h12 | h3
    · rcases List.mem_append.mp h12 with h1 | h2
      · cases neg
        · simp at h1
        · simp at h1
          subst h1
          exact ⟨by decide, by decide, by decide, by decide⟩
      · exact digit_safe (hiD c h2)
    · exact hfS c h3
  have hs1 := removeSeps_of_safe _ hsafe
  have hs2 := trimList_of_safe _ hsafe
  have hs3 := splitOnChar_e_of_safe _ hsafe
  simp only [parse_dec19x19_internal]
  rw [hs1, hs2, hs3]
  simp only [List.length_cons, List.length_nil, List.getD_cons_succ, List.getD_nil,
    List.headD_cons]
  norm_num
  have hA : (digitsToNat intStr : Int) ≤ 10 ^ 18 := by exact_mod_cast hiVal
  have hAnn : (0 : Int) ≤ (digitsToNat intStr : Int) := Int.natCast_nonneg _
  have hFSlit : FRAC_SCALE = 10000000000000000000 := by
    norm_num [FRAC_SCALE, FRAC_SCALE_N, FRAC_PLACES]
  have hmul : checkedMulI128 (if neg = true then -(digitsToNat intStr : Int)
        else (digitsToNat intStr : Int)) FRAC_SCALE
      = some ((if neg = true then -(digitsToNat intStr : Int)
        else (digitsToNat intStr : Int)) * FRAC_SCALE) := by
    unfold checkedMulI128
    rw [if_pos]
    constructor
    · unfold I128_MIN
      cases neg <;> simp only [Bool.false_eq_true, if_false, if_true] <;> rw [hFSlit] <;> nlinarith
    · unfold I128_MAX
      cases neg <;> simp only [Bool.false_eq_true, if_false, if_true] <;> rw [hFSlit] <;> nlinarith
  have hpint : parse_i128 ((if neg = true then ['-'] else []) ++ intStr)
      = some (if neg = true then -(digitsToNat intStr : Int) else (digitsToNat intStr : Int)) := by
    cases neg
    · simp only [Bool.false_eq_true, if_false, List.nil_append]
      rcases intStr with _ | ⟨c, rest⟩
      · exact absurd rfl hiNe
      · exact parse_i128_digits c rest hiD (by unfold I128_MAX; omega)
    · simp only [if_true, List.singleton_append]
      exact parse_i128_neg_digits intStr hiNe hiD (by omega)
  have hneg_val : (match (if neg = true then ['-'] else []) ++ intStr with
      | c :: tail => decide (c = '-')
      | [] => false) = neg := by
    cases neg
    · rcases intStr with _ | ⟨c, rest⟩
      · exact absurd rfl hiNe
      · show decide (c = '-') = false
        exact decide_eq_false (digit_char_basic (hiD c (List.mem_cons_self c rest))).2.2.2.1
    · show decide ('-' = '-') = true
      decide
  have hdotInt : '.' ∉ (if neg = true then ['-'] else []) ++ intStr := by
    intro hm
    rcases List.mem_append.mp hm with h1 | h2
    · cases neg
      · simp at h1
      · simp at h1
    · exact absurd rfl (digit_char_basic (hiD _ h2)).2.2.2.2.2.1
  have hint_r : (if (dropLeadingZeros ((if neg = true then ['-'] else []) ++ intStr)).isEmpty = true
      then ['0'] else dropLeadingZeros ((if neg = true then ['-'] else []) ++ intStr))
      = (if neg = true then ['-'] else []) ++ intStr := by
    cases neg
    · simp only [Bool.false_eq_true, if_false, List.nil_append]
      rcases hiLead with hl | hl
      · rw [hl]
        have : intStr.isEmpty = false := by
          cases intStr with
          | nil => exact absurd rfl hiNe
          | cons a as => rfl
        rw [this]
        simp
      · rw [hl]
        rfl
    · simp only [if_true, List.singleton_append]
      have : dropLeadingZeros ('-' :: intStr) = '-' :: intStr := by
        unfold dropLeadingZeros
        rw [List.dropWhile_cons]
        simp
      rw [this]
      rfl
  by_cases hfe : fracStr = []
  · subst hfe
    simp only [if_true, List.append_nil]
    rw [splitOnChar_no_occ '.' _ hdotInt]
    simp only [List.head?_cons, Option.getD_some, List.getElem?_cons_succ, List.getElem?_nil,
      Option.getD_none, List.length_cons, List.length_nil]
    rw [if_neg (by norm_num : ¬(2:Nat) < 1)]
    rw [shift_decimal_zero, hint_r]
    rw [show dropTrailingZeros ([] : List Char) = [] from rfl]
    simp only [List.isEmpty_nil, if_true]
    rw [hpint]
    simp only [FRAC_PLACES, List.singleton_append, List.length_cons, List.length_nil]
    rw [show utf8Len ['0'] = 1 from rfl]
    rw [if_neg (by norm_num : ¬(19:Nat) < 1)]
    norm_num
    rw [show parse_i128 ('0' :: List.replicate 18 '0') = some 0 from by decide]
    rw [hmul, hneg_val]
    cases neg
    · simp only [Bool.false_eq_true, if_false]
      rw [show checkedAddI128 ((digitsToNat intStr : Int) * FRAC_SCALE) 0
          = some ((digitsToNat intStr : Int) * FRAC_SCALE + 0) from by
        unfold checkedAddI128
        rw [if_pos]
        constructor
        · unfold I128_MIN
          rw [hFSlit]
          nlinarith
        · unfold I128_MAX
          rw [hFSlit]
          nlinarith]
      rw [show digitsToNat ([] : List Char) = 0 from rfl]
      norm_num
    · simp only [if_true]
      rw [show checkedSubI128 (-(digitsToNat intStr : Int) * FRAC_SCALE) 0
          = some (-(digitsToNat intStr : Int) * FRAC_SCALE - 0) from by
        unfold checkedSubI128
        rw [if_pos]
        constructor
        · unfold I128_MIN
          rw [hFSlit]
          nlinarith
        · unfold I128_MAX
          rw [hFSlit]
          nlinarith]
      rw [show digitsToNat ([] : List Char) = 0 from rfl]
      norm_num
  · have hassoc : (if neg = true then ['-'] else []) ++ (intStr ++ '.' :: fracStr)
        = ((if neg = true then ['-'] else []) ++ intStr) ++ '.' :: fracStr :=
      (List.append_assoc _ _ _).symm
    have hdotFrac : '.' ∉ fracStr :=
      fun hm => absurd rfl (digit_char_basic (hfD _ hm)).2.2.2.2.2.1
    have hsplit : splitOnChar '.' ((if neg = true then ['-'] else []) ++ (intStr ++ '.' :: fracStr))
        = [(if neg = true then ['-'] else []) ++ intStr, fracStr] := by
      rw [hassoc]
      exact splitOnChar_single '.' fracStr hdotFrac _ hdotInt
    have hfne : fracStr.isEmpty = false := by
      cases fracStr with
      | nil => exact absurd rfl hfe
      | cons a as => rfl
    have hneg_val2 : (match (if neg = true then ['-'] else []) ++ (intStr ++ '.' :: fracStr) with
        | c :: tail => decide (c = '-')
        | [] => false) = neg := by
      cases neg
      · rcases intStr with _ | ⟨c, rest⟩
        · exact absurd rfl hiNe
        · show decide (c = '-') = false
          exact decide_eq_false (digit_char_basic (hiD c (List.mem_cons_self c rest))).2.2.2.1
      · show decide ('-' = '-') = true
        decide
    have hulen : utf8Len fracStr = fracStr.length :=
      utf8Len_eq_length _ (fun c hc => (digit_char_basic (hfD c hc)).2.2.1)
    simp only [if_neg hfe]
    rw [hsplit]
    simp only [List.head?_cons, Option.getD_some, List.getElem?_cons_succ,
      List.getElem?_cons_zero, List.length_cons, List.length_nil]
    rw [if_neg (by norm_num : ¬(2:Nat) < 2)]
    rw [shift_decimal_zero, hint_r, hfTrail, hfne]
    simp only [Bool.false_eq_true, if_false]
    rw [hpint]
    simp only [FRAC_PLACES]
    rw [hulen]
    rw [if_neg (by omega : ¬(19:Nat) < fracStr.length)]
    rw [parse_padded fracStr hfe hfD hfLen]
    rw [hmul, hneg_val2]
    have hBI : ((digitsToNat fracStr * 10 ^ (19 - fracStr.length) : Nat) : Int) < 10 ^ 19 := by
      exact_mod_cast padded_val_lt fracStr hfD hfLen
    have hBnn : (0 : Int) ≤ ((digitsToNat fracStr * 10 ^ (19 - fracStr.length) : Nat) : Int) :=
      Int.natCast_nonneg _
    cases neg
    · simp only [Bool.false_eq_true, if_false]
      rw [show checkedAddI128 ((digitsToNat intStr : Int) * FRAC_SCALE)
            ((digitsToNat fracStr * 10 ^ (19 - fracStr.length) : Nat) : Int)
          = some ((digitsToNat intStr : Int) * FRAC_SCALE
            + ((digitsToNat fracStr * 10 ^ (19 - fracStr.length) : Nat) : Int)) from by
        unfold checkedAddI128
        rw [if_pos]
        constructor
        · unfold I128_MIN
          rw [hFSlit]
          nlinarith
        · unfold I128_MAX
          rw [hFSlit]
          nlinarith]
      push_cast
      ring
    · simp only [if_true]
      rw [show checkedSubI128 (-(digitsToNat intStr : Int) * FRAC_SCALE)
            ((digitsToNat fracStr * 10 ^ (19 - fracStr.length) : Nat) : Int)
          = some (-(digitsToNat intStr : Int) * FRAC_SCALE
            - ((digitsToNat fracStr * 10 ^ (19 - fracStr.length) : Nat) : Int)) from by
        unfold checkedSubI128
        rw [if_pos]
        constructor
        · unfold I128_MIN
          rw [hFSlit]
          nlinarith
        · unfold I128_MAX
          rw [hFSlit]
          nlinarith]
      push_cast
      ring

/-- C2: for every representable value in the spec's test range
(`|value| ≤ 10^18`, i.e. `|repr| ≤ 10^37`), parsing the string produced
by formatting with the default configuration returns exactly the
original value. -/
theorem parse_format_roundtrip (r : Int) (hlo : -(10 ^ 37) ≤ r) (hhi : r ≤ 10 ^ 37) :
    parse_dec19x19_internal (format ⟨r⟩ defaultFormatter) = ParseResult.ok r := by
  have hFSlit : FRAC_SCALE = 10000000000000000000 := by
    norm_num [FRAC_SCALE, FRAC_SCALE_N, FRAC_PLACES]
  have hrecon : FRAC_SCALE * (r.tdiv FRAC_SCALE) + r.tmod FRAC_SCALE = r :=
    Int.tdiv_add_tmod r FRAC_SCALE
  have hmabs : (r.tmod FRAC_SCALE).natAbs = r.natAbs % FRAC_SCALE.natAbs := tmod_natAbs r _
  have hqabs : (r.tdiv FRAC_SCALE).natAbs = r.natAbs / FRAC_SCALE.natAbs := Int.natAbs_tdiv r _
  have hSabs : FRAC_SCALE.natAbs = 10000000000000000000 := by
    rw [hFSlit]
    rfl
  rw [hSabs] at hmabs hqabs
  have h37 : r.natAbs ≤ 10 ^ 37 := by
    have e37 : (10 : Int) ^ 37 = 10000000000000000000000000000000000000 := by norm_num
    rw [e37] at hlo hhi
    omega
  have hm1 : r < 0 → r.tmod FRAC_SCALE ≤ 0 := fun h => tmod_nonpos_of_neg r _ h
  have hm2 : 0 ≤ r → 0 ≤ r.tmod FRAC_SCALE := fun h => Int.tmod_nonneg _ h
  have hf_lt : (r.tmod FRAC_SCALE).natAbs < 10 ^ 19 := by omega
  have hq_le : (r.tdiv FRAC_SCALE).natAbs ≤ 10 ^ 18 := by omega
  obtain ⟨hqv, hqne, hqD⟩ := natDigits_spec (r.tdiv FRAC_SCALE).natAbs
  obtain ⟨hfv, hfne0, hfD0⟩ := natDigits_spec (r.tmod FRAC_SCALE).natAbs
  -- the padded 19-digit fraction string
  have hflen : (natDigits (r.tmod FRAC_SCALE).natAbs).length ≤ 19 :=
    natDigits_len _ 19 hf_lt (by norm_num)
  have hF19len : (padLeftZeros FRAC_PLACES (natDigits (r.tmod FRAC_SCALE).natAbs)).length = 19 := by
    unfold padLeftZeros FRAC_PLACES
    rw [List.length_append, List.length_replicate]
    omega
  have hF19val : digitsToNat (padLeftZeros FRAC_PLACES (natDigits (r.tmod FRAC_SCALE).natAbs))
      = (r.tmod FRAC_SCALE).natAbs := by
    unfold padLeftZeros
    rw [digitsToNat_leading_zeros, hfv]
  have hF19D : ∀ c ∈ padLeftZeros FRAC_PLACES (natDigits (r.tmod FRAC_SCALE).natAbs),
      IsDigitChar c := by
    intro c hc
    unfold padLeftZeros at hc
    rcases List.mem_append.mp hc with h1 | h2
    · rw [List.eq_of_mem_replicate h1]
      exact zero_is_digit_char
    · exact hfD0 c h2
  obtain ⟨k, hkeq, hklen⟩ :=
    dropTrailingZeros_exists (padLeftZeros FRAC_PLACES (natDigits (r.tmod FRAC_SCALE).natAbs))
  have hfracLen : (dropTrailingZeros (padLeftZeros FRAC_PLACES
      (natDigits (r.tmod FRAC_SCALE).natAbs))).length ≤ 19 := by omega
  have hkval : k = 19 - (dropTrailingZeros (padLeftZeros FRAC_PLACES
      (natDigits (r.tmod FRAC_SCALE).natAbs))).length := by omega
  have hBval : digitsToNat (dropTrailingZeros (padLeftZeros FRAC_PLACES
        (natDigits (r.tmod FRAC_SCALE).natAbs)))
      * 10 ^ (19 - (dropTrailingZeros (padLeftZeros FRAC_PLACES
        (natDigits (r.tmod FRAC_SCALE).natAbs))).length)
      = (r.tmod FRAC_SCALE).natAbs := by
    rw [← hkval, ← digitsToNat_append_zeros, ← hkeq, hF19val]
  have hiLead : dropLeadingZeros (natDigits (r.tdiv FRAC_SCALE).natAbs)
        = natDigits (r.tdiv FRAC_SCALE).natAbs
      ∨ natDigits (r.tdiv FRAC_SCALE).natAbs = ['0'] := by
    by_cases hq0 : (r.tdiv FRAC_SCALE).natAbs = 0
    · right
      rw [hq0]
      decide
    · left
      rcases hl : natDigits (r.tdiv FRAC_SCALE).natAbs with _ | ⟨c, cs⟩
      · exact absurd hl hqne
      · have hc0 : c ≠ '0' := by
          apply natDigits_head_ne_zero _ hq0
          rw [hl]
          rfl
        unfold dropLeadingZeros
        rw [List.dropWhile_cons]
        simp [hc0]
  rw [format_default ⟨r⟩]
  simp only [show (Dec19x19.mk r).repr = r from rfl]
  rw [show (if r < 0 then ['-'] else []) = (if decide (r < 0) = true then ['-'] else []) from by
    simp [decide_eq_true_eq]]
  rw [parse_canonical_core (decide (r < 0)) _ _ hqne hqD
    (fun c hc => hF19D c (dropTrailingZeros_mem hc)) hfracLen hiLead
    (dropTrailingZeros_idem _) (by rw [hqv]; exact hq_le)]
  congr 1
  have hBI : (digitsToNat (dropTrailingZeros (padLeftZeros FRAC_PLACES
        (natDigits (r.tmod FRAC_SCALE).natAbs))) : Int)
      * 10 ^ (19 - (dropTrailingZeros (padLeftZeros FRAC_PLACES
        (natDigits (r.tmod FRAC_SCALE).natAbs))).length)
      = ((r.tmod FRAC_SCALE).natAbs : Int) := by
    conv_rhs => rw [← hBval]
    push_cast
    ring
  rw [hBI, hqv, hFSlit]
  rw [hFSlit] at hrecon hmabs hqabs hf_lt hq_le hm1 hm2
  cases hd : decide (r < 0) with
  | false =>
    have hr : ¬ r < 0 := of_decide_eq_false hd
    have hm := hm2 (by omega)
    simp only [Bool.false_eq_true, if_false]
    omega
  | true =>
    have hr : r < 0 := of_decide_eq_true hd
    have hm := hm1 hr
    show (-1 : Int) * (((r.tdiv 10000000000000000000).natAbs : Int) * 10000000000000000000
      + ((r.tmod 10000000000000000000).natAbs : Int)) = r
    omega

/-- Witness for C2 at `r = -(10^19 + 5)` (the value
`-1.0000000000000000005`). -/
theorem parse_format_roundtrip_witness :
    (-(10 ^ 37) : Int) ≤ -(10 ^ 19 + 5) ∧ (-(10 ^ 19 + 5) : Int) ≤ 10 ^ 37 ∧
    parse_dec19x19_internal (format ⟨-(10 ^ 19 + 5)⟩ defaultFormatter)
      = ParseResult.ok (-(10 ^ 19 + 5)) :=
  ⟨by decide, by decide, parse_format_roundtrip (-(10 ^ 19 + 5)) (by decide) (by decide)⟩
